import Mathlib

/-!
Verification development for `serve.py`, a small local markdown-preview
web server.  Strings are embedded as `List Char`.  Every Python regex
substitution (`re.sub`) is translated into an executable scanner that
reproduces the leftmost, non-overlapping match behaviour of `re.sub`
(with the greedy / lazy quantifier semantics of the concrete pattern),
and Python `str.replace` becomes a left-to-right non-overlapping
literal replacement.  The HTTP handler is embedded as a function of an
explicit filesystem (an association list from relative paths, written
without a leading "./", to file contents); since the handler performs
no filesystem writes, it returns the filesystem unchanged.
-/

set_option maxRecDepth 40000

abbrev Str := List Char

/-- Coerce a Lean string literal to the `List Char` representation. -/
def S (s : String) : Str := s.data

/-- Boolean prefix test on character lists. -/
def startsW : Str → Str → Bool
  | [], _ => true
  | _ :: _, [] => false
  | p :: ps, c :: cs => (p == c) && startsW ps cs

/-- Boolean suffix test on character lists. -/
def endsW (pat s : Str) : Bool := startsW pat.reverse s.reverse

/-- Boolean substring test: does `pat` occur anywhere in `s`? -/
def occurs (pat : Str) : Str → Bool
  | [] => startsW pat []
  | c :: cs => startsW pat (c :: cs) || occurs pat cs

/-- Suffix of `s` after the first occurrence of `pat` (`[]` if none). -/
def dropThrough (pat : Str) : Str → Str
  | [] => []
  | c :: cs => if startsW pat (c :: cs) then (c :: cs).drop pat.length else dropThrough pat cs

/-- Generic left-to-right substitution scanner.  At every position the
matcher `m` is tried; on `some (e, r)` the replacement `e` is emitted
and scanning resumes at the leftover `r` (matches never overlap, as in
`re.sub`); otherwise one character is copied.  The fuel argument makes
the definition structural; the callers pass `length + 1`, which is
sufficient whenever the matcher consumes at least one character. -/
def reSubF : Nat → (Str → Option (Str × Str)) → Str → Str
  | 0, _, s => s
  | _ + 1, _, [] => []
  | n + 1, m, c :: cs =>
    match m (c :: cs) with
    | some (e, r) => e ++ reSubF n m r
    | none => c :: reSubF n m cs

/-- Run a matcher over a string with sufficient fuel. -/
def reSub (m : Str → Option (Str × Str)) (s : Str) : Str := reSubF (s.length + 1) m s

/-- Substitution scanner for patterns anchored at line starts
(`re.MULTILINE` with a leading `^`).  The Bool flag records whether the
current position is a line start; after a match, scanning resumes in
mid-line mode (the next `^` can only match after a newline). -/
def lineSubF : Nat → (Str → Option (Str × Str)) → Bool → Str → Str
  | 0, _, _, s => s
  | _ + 1, _, _, [] => []
  | n + 1, m, atStart, c :: cs =>
    if atStart then
      match m (c :: cs) with
      | some (e, r) => e ++ lineSubF n m false r
      | none =>
        if c == '\n' then c :: lineSubF n m true cs else c :: lineSubF n m false cs
    else
      if c == '\n' then c :: lineSubF n m true cs else c :: lineSubF n m false cs

/-- Run a line-anchored matcher over a string (the start of the string
is a line start). -/
def lineSub (m : Str → Option (Str × Str)) (s : Str) : Str := lineSubF (s.length + 1) m true s

/-- Matcher for a literal pattern, as used by `str.replace(old, new)`
and by the regex substitutions whose pattern has no metacharacters. -/
def litM (old new : Str) (s : Str) : Option (Str × Str) :=
  if startsW old s then some (new, s.drop old.length) else none

/-- Python `str.replace`: left-to-right, non-overlapping. -/
def replaceAll (old new s : Str) : Str := reSub (litM old new) s

/-- serve.py line 20: `html.replace('&','&amp;').replace('<','&lt;').replace('>','&gt;')`. -/
def escapeHtml (t : Str) : Str :=
  replaceAll (S (">")) (S ("&gt;")) (replaceAll (S ("<")) (S ("&lt;")) (replaceAll (S ("&")) (S ("&amp;")) t))

/-- Matcher for a line-anchored pattern `^PRE(.+)$`: the literal prefix
`pre`, then a nonempty group running to the end of the line, rewritten
to `otag ++ group ++ ctag`.  Used for the header rules (lines 23-28)
and the unordered-list rule (line 42). -/
def lineTagM (pre otag ctag : Str) (s : Str) : Option (Str × Str) :=
  if startsW pre s then
    let rest := s.drop pre.length
    let g := rest.takeWhile (fun c => !(c == '\n'))
    if g.isEmpty then none
    else some (otag ++ g ++ ctag, rest.dropWhile (fun c => !(c == '\n')))
  else none

/-- `k` hash characters. -/
def hashes (k : Nat) : Str := List.replicate k '#'

/-- Opening tag `<hk>`. -/
def hOpen (k : Nat) : Str := '<' :: 'h' :: Char.ofNat (48 + k) :: [ '>' ]

/-- Closing tag `</hk>`. -/
def hClose (k : Nat) : Str := '<' :: '/' :: 'h' :: Char.ofNat (48 + k) :: [ '>' ]

/-- One header substitution `re.sub(r'^#..# (.+)$', r'<hk>\1</hk>', html, flags=re.MULTILINE)`. -/
def headerPass (k : Nat) (s : Str) : Str :=
  lineSub (lineTagM (hashes k ++ [' ']) (hOpen k) (hClose k)) s

/-- serve.py lines 23-28: the six header substitutions, longest prefix first. -/
def headersStage (s : Str) : Str :=
  headerPass 1 (headerPass 2 (headerPass 3 (headerPass 4 (headerPass 5 (headerPass 6 s)))))

/-- Lazy span search: consume at least one character not satisfying
`bad`, stopping as soon as the closing delimiter `close` follows
(`(.+?)close` with `.` excluding newline, or `([^X]+)close`).
Returns the group and the text after the closing delimiter. -/
def fc (bad : Char → Bool) (close : Str) : Str → Option (Str × Str)
  | [] => none
  | c :: cs =>
    if bad c then none
    else if startsW close cs then some ([c], cs.drop close.length)
    else
      match fc bad close cs with
      | some gr => some (c :: gr.1, gr.2)
      | none => none

/-- Matcher for `OPEN(.+?)CLOSE`-style spans rewritten to
`otag ++ group ++ ctag`. -/
def spanM (op close otag ctag : Str) (bad : Char → Bool) (s : Str) : Option (Str × Str) :=
  if startsW op s then
    match fc bad close (s.drop op.length) with
    | some gr => some (otag ++ gr.1 ++ ctag, gr.2)
    | none => none
  else none

/-- serve.py line 31: `re.sub(r'\*\*\*(.+?)\*\*\*', r'<strong><em>\1</em></strong>', html)`. -/
def stars3Stage (s : Str) : Str :=
  reSub (spanM (S ("***")) (S ("***")) (S ("<strong><em>")) (S ("</em></strong>")) (fun c => c == '\n')) s

/-- serve.py line 32: `re.sub(r'\*\*(.+?)\*\*', r'<strong>\1</strong>', html)`. -/
def stars2Stage (s : Str) : Str :=
  reSub (spanM (S ("**")) (S ("**")) (S ("<strong>")) (S ("</strong>")) (fun c => c == '\n')) s

/-- serve.py line 33: `re.sub(r'\*(.+?)\*', r'<em>\1</em>', html)`. -/
def stars1Stage (s : Str) : Str :=
  reSub (spanM (S ("*")) (S ("*")) (S ("<em>")) (S ("</em>")) (fun c => c == '\n')) s

/-- The backtick character. -/
def btick : Char := Char.ofNat 96

/-- serve.py line 48: inline code spans.  The pattern is the backtick
character, then `([^X]+)` over non-backtick characters (newline
allowed), then a closing backtick. -/
def codeStage (s : Str) : Str :=
  reSub (spanM [btick] [btick] (S ("<code>")) (S ("</code>")) (fun c => c == btick)) s

/-- The image replacement template of serve.py line 36. -/
def imgTag (alt url : Str) : Str :=
  S ("<img src=\"") ++ url ++ S ("\" alt=\"") ++ alt ++ S ("\" style=\"max-width:100%\">")

/-- Matcher for serve.py line 36: `!\[([^\]]*)\]\(([^)]+)\)`. -/
def imgM (s : Str) : Option (Str × Str) :=
  if startsW (S ("![")) s then
    let r1 := s.drop 2
    let alt := r1.takeWhile (fun c => !(c == ']'))
    let t2 := r1.drop alt.length
    if startsW (S ("](")) t2 then
      let r4 := t2.drop 2
      let url := r4.takeWhile (fun c => !(c == ')'))
      if url.isEmpty then none
      else
        let t3 := r4.drop url.length
        if startsW (S (")")) t3 then some (imgTag alt url, t3.drop 1) else none
    else none
  else none

/-- serve.py line 36: the image substitution. -/
def imgStage (s : Str) : Str := reSub imgM s

/-- Matcher for serve.py line 39: `\[([^\]]+)\]\(([^)]+)\)` rewritten
to `<a href="url">text</a>`. -/
def linkM (s : Str) : Option (Str × Str) :=
  if startsW (S ("[")) s then
    let r1 := s.drop 1
    let txt := r1.takeWhile (fun c => !(c == ']'))
    if txt.isEmpty then none
    else
      let t2 := r1.drop txt.length
      if startsW (S ("](")) t2 then
        let r4 := t2.drop 2
        let url := r4.takeWhile (fun c => !(c == ')'))
        if url.isEmpty then none
        else
          let t3 := r4.drop url.length
          if startsW (S (")")) t3 then
            some (S ("<a href=\"") ++ url ++ S ("\">") ++ txt ++ S ("</a>"), t3.drop 1)
          else none
      else none
  else none

/-- serve.py line 39: the link substitution. -/
def linkStage (s : Str) : Str := reSub linkM s

/-- serve.py line 42: `re.sub(r'^- (.+)$', r'<li>\1</li>', html, flags=re.MULTILINE)`. -/
def unordStage (s : Str) : Str :=
  lineSub (lineTagM (S ("- ")) (S ("<li>")) (S ("</li>"))) s

/-- The code-point ranges of the characters matched by the regex `\d`
on `str` patterns: the Unicode decimal digits (category Nd), as in the
`re` module of CPython 3.11 / Unicode 14. -/
def ndRanges : List (Nat × Nat) :=
  [(48, 57), (1632, 1641), (1776, 1785), (1984, 1993), (2406, 2415), (2534, 2543),
   (2662, 2671), (2790, 2799), (2918, 2927), (3046, 3055), (3174, 3183), (3302, 3311),
   (3430, 3439), (3558, 3567), (3664, 3673), (3792, 3801), (3872, 3881), (4160, 4169),
   (4240, 4249), (6112, 6121), (6160, 6169), (6470, 6479), (6608, 6617), (6784, 6793),
   (6800, 6809), (6992, 7001), (7088, 7097), (7232, 7241), (7248, 7257), (42528, 42537),
   (43216, 43225), (43264, 43273), (43472, 43481), (43504, 43513), (43600, 43609),
   (44016, 44025), (65296, 65305), (66720, 66729), (68912, 68921), (69734, 69743),
   (69872, 69881), (69942, 69951), (70096, 70105), (70384, 70393), (70736, 70745),
   (70864, 70873), (71248, 71257), (71360, 71369), (71472, 71481), (71904, 71913),
   (72016, 72025), (72784, 72793), (73040, 73049), (73120, 73129), (92768, 92777),
   (92864, 92873), (93008, 93017), (120782, 120831), (123200, 123209), (123632, 123641),
   (125264, 125273), (130032, 130041)]

/-- Regex `\d` on `str` patterns: Unicode decimal digit. -/
def isPyDigit (c : Char) : Bool :=
  ndRanges.any (fun r => decide (r.1 ≤ c.toNat ∧ c.toNat ≤ r.2))

/-- The code-point ranges of the characters matched by the regex `\s`
on `str` patterns (Unicode-aware whitespace, as in the `re` module of
CPython 3.11). -/
def wsRanges : List (Nat × Nat) :=
  [(9, 13), (28, 32), (133, 133), (160, 160), (5760, 5760), (8192, 8202),
   (8232, 8233), (8239, 8239), (8287, 8287), (12288, 12288)]

/-- Regex `\s` on `str` patterns: Unicode whitespace. -/
def isPySpace (c : Char) : Bool :=
  wsRanges.any (fun r => decide (r.1 ≤ c.toNat ∧ c.toNat ≤ r.2))

/-- Matcher for serve.py line 45: `^\d+\.\s+(.+)$` with `re.MULTILINE`.
Greedy `\s+` takes the maximal whitespace run `w`; when text follows
on the same line, the group `(.+)` runs from there to the end of the
line.  When the string ends right after `w`, the engine backtracks
`\s+`: the longest `\s+` still allowing `(.+)$` to match keeps `w` up
to (excluding) its final non-newline character, `(.+)` matches that
single character, and `$` matches before the trailing newline run,
which is left unconsumed.  This needs a non-newline character at index
at least 1 of `w`, i.e. `w` stripped of trailing newlines must have
length at least 2. -/
def ordM (s : Str) : Option (Str × Str) :=
  let d := s.takeWhile isPyDigit
  if d.isEmpty then none
  else
    let t := s.drop d.length
    if startsW (S (".")) t then
      let r2 := t.drop 1
      let w := r2.takeWhile isPySpace
      if w.isEmpty then none
      else
        let p := r2.drop w.length
        let g := p.takeWhile (fun c => !(c == '\n'))
        if g.isEmpty then
          let w2 := (w.reverse.dropWhile (fun c => c == '\n')).reverse
          if p.isEmpty && decide (2 ≤ w2.length) then
            some (S ("<li>") ++ [w2.getLastD ' '] ++ S ("</li>"), w.drop w2.length)
          else none
        else some (S ("<li>") ++ g ++ S ("</li>"), p.drop g.length)
    else none

/-- serve.py line 45: the ordered-list substitution. -/
def ordStage (s : Str) : Str := lineSub ordM s

/-- Matcher for serve.py line 51: `\n\n+` (greedy: the maximal newline
run of length at least two) replaced by `</p><p>`. -/
def paraM (s : Str) : Option (Str × Str) :=
  if startsW (S ("\n\n")) s then some (S ("</p><p>"), s.dropWhile (fun c => c == '\n')) else none

/-- serve.py line 51: paragraph segmentation. -/
def paraStage (s : Str) : Str := reSub paraM s

/-- serve.py line 52: `html = '<p>' + html + '</p>'`. -/
def pWrap (s : Str) : Str := S ("<p>") ++ s ++ S ("</p>")

/-- Matcher for serve.py line 55: `<p>\s*</p>` removed. -/
def emptyPM (s : Str) : Option (Str × Str) :=
  if startsW (S ("<p>")) s then
    let r := (s.drop 3).dropWhile isPySpace
    if startsW (S ("</p>")) r then some (([] : Str), r.drop 4) else none
  else none

/-- serve.py line 55: remove whitespace-only paragraphs. -/
def cleanEmptyStage (s : Str) : Str := reSub emptyPM s

/-- serve.py line 56: `re.sub(r'<p>(<li>)', r'<ul>\1', html)`. -/
def openUlStage (s : Str) : Str := reSub (litM (S ("<p><li>")) (S ("<ul><li>"))) s

/-- serve.py line 57: `re.sub(r'(</li>)</p>', r'\1</ul>', html)`. -/
def closeUlStage (s : Str) : Str := reSub (litM (S ("</li></p>")) (S ("</li></ul>"))) s

/-- serve.py lines 23-57: the stages of `md_to_html` that follow the
initial escaping step, in source order. -/
def postEscape (s : Str) : Str :=
  closeUlStage (openUlStage (cleanEmptyStage (pWrap (paraStage (codeStage (ordStage
    (unordStage (linkStage (imgStage (stars1Stage (stars2Stage (stars3Stage
      (headersStage s)))))))))))))

/-- serve.py lines 17-57: the body transformation of `md_to_html`;
the escaping of line 20 runs first, before every other stage. -/
def mdBody (t : Str) : Str := postEscape (escapeHtml t)

/-- serve.py lines 59-64 of the f-string template: everything before
the interpolated `{title}`. -/
def tplHead : Str :=
  S ("<!DOCTYPE html>\n<html lang=\"en\">\n<head>\n    <meta charset=\"UTF-8\">\n    <meta name=\"viewport\" content=\"width=device-width, initial-scale=1.0\">\n    <title>")

/-- serve.py lines 64-88 of the f-string template: between `{title}`
and the interpolated `{html}` body. -/
def tplMid : Str :=
  S ("</title>\n    <style>\n        body \x7b\n            max-width: 800px;\n            margin: 0 auto;\n            padding: 2rem;\n            font-family: -apple-system, BlinkMacSystemFont, \"Segoe UI\", Roboto, Helvetica, Arial, sans-serif;\n            line-height: 1.6;\n            color: #333;\n            background: #fafafa;\n        \x7d\n        h1, h2, h3, h4, h5, h6 \x7b color: #111; margin-top: 1.5em; \x7d\n        a \x7b color: #0066cc; \x7d\n        code \x7b background: #f0f0f0; padding: 0.2em 0.4em; border-radius: 3px; font-size: 0.9em; \x7d\n        img \x7b max-width: 100%; height: auto; \x7d\n        blockquote \x7b border-left: 4px solid #ddd; margin-left: 0; padding-left: 1rem; color: #666; \x7d\n        ul, ol \x7b padding-left: 2rem; \x7d\n        li \x7b margin: 0.5em 0; \x7d\n        .nav \x7b margin-bottom: 2rem; padding-bottom: 1rem; border-bottom: 1px solid #ddd; \x7d\n        .nav a \x7b margin-right: 1rem; \x7d\n    </style>\n</head>\n<body>\n    <nav class=\"nav\"><a href=\"/\">← Home</a></nav>\n    ")

/-- serve.py lines 88-90 of the f-string template: after `{html}`. -/
def tplTail : Str := S ("\n</body>\n</html>")

/-- serve.py lines 13-90: `md_to_html(md_content, title)`. -/
def md_to_html (t : Str) (title : Str) : Str :=
  tplHead ++ title ++ tplMid ++ mdBody t ++ tplTail

/-! ### Filesystem model and request handler -/

/-- The filesystem: an association list from relative paths (no
leading "./") to file contents. -/
abbrev Fs := List (Str × Str)

/-- First-match lookup in the filesystem. -/
def fsLookup : Fs → Str → Option Str
  | [], _ => none
  | (k, v) :: rest, p => if k = p then some v else fsLookup rest p

/-- `Path('.' + path)` denotes the same file as the relative path
without the leading "./"; strip it for lookups. -/
def stripDotSlash (p : Str) : Str := if startsW (S ("./")) p then p.drop 2 else p

/-- Split a character list on a separator character. -/
def splitOnC (sep : Char) : Str → List Str
  | [] => [[]]
  | c :: cs =>
    if c == sep then [] :: splitOnC sep cs
    else
      match splitOnC sep cs with
      | [] => [[c]]
      | g :: gs => (c :: g) :: gs

/-- serve.py line 104: does a relative path match the glob
`Path('.').rglob('*/dist/md/*.md')`, i.e. at least one leading
directory component, then `dist/md/`, then a name matching `*.md`? -/
def isDistMd (p : Str) : Bool :=
  match (splitOnC '/' p).reverse with
  | name :: mdSeg :: distSeg :: rest =>
    (!rest.isEmpty) && (mdSeg = S ("md") : Bool) && (distSeg = S ("dist") : Bool) && endsW (S (".md")) name
  | _ => false

/-- Lexicographic comparison of character lists by code point. -/
def strLe : Str → Str → Bool
  | [], _ => true
  | _ :: _, [] => false
  | a :: as_, b :: bs => if a = b then strLe as_ bs else decide (a.toNat < b.toNat)

/-- `sorted()` on `Path` objects compares the tuples of path parts. -/
def partsLe (a b : Str) : Bool :=
  let rec go : List Str → List Str → Bool
    | [], _ => true
    | _ :: _, [] => false
    | x :: xs, y :: ys => if x = y then go xs ys else strLe x y
  go (splitOnC '/' a) (splitOnC '/' b)

/-- Insertion sort by a boolean relation (a stable sort, as `sorted`). -/
def insSort (le : Str → Str → Bool) : List Str → List Str
  | [] => []
  | x :: xs =>
    let rec ins (x : Str) : List Str → List Str
      | [] => [x]
      | y :: ys => if le x y then x :: y :: ys else y :: ins x ys
    ins x (insSort le xs)

/-- serve.py line 104: `sorted(Path('.').rglob('*/dist/md/*.md'))`. -/
def mdFiles (fs : Fs) : List Str :=
  insSort partsLe ((fs.map Prod.fst).filter isDistMd)

/-- Last path component (`Path.name`). -/
def lastComp (p : Str) : Str := (splitOnC '/' p).getLastD []

/-- `Path.stem`: the final component without its suffix; cpython takes
the suffix only when the last dot is at an index `i` with
`0 < i < len(name) - 1`. -/
def stemOf (name : Str) : Str :=
  match name.reverse.findIdx? (fun c => c == '.') with
  | none => name
  | some j =>
    let i := name.length - 1 - j
    if 0 < i && i + 1 < name.length then name.take i else name

/-- `Path(p).stem` for a path string. -/
def stemPath (p : Str) : Str := stemOf (lastComp p)

/-- serve.py line 108: `Path(str(md).replace('/md/', '/pdf/').replace('.md', '.pdf'))`. -/
def derivedPdf (p : Str) : Str :=
  replaceAll (S (".md")) (S (".pdf")) (replaceAll (S ("/md/")) (S ("/pdf/")) p)

/-- serve.py lines 108-110: one index entry. -/
def entryFor (fs : Fs) (md : Str) : Str :=
  let pdf := derivedPdf md
  let pdfLink :=
    if (fsLookup fs pdf).isSome then
      S (" <a href=\"/") ++ pdf ++ S ("\" class=\"pdf\">📄 PDF</a>")
    else []
  S ("<li><a href=\"/") ++ md ++ S ("\">") ++ stemPath md ++ S ("</a>") ++ pdfLink ++ S ("</li>")

/-- Concatenate a list of character lists (`''.join`). -/
def concatAll : List Str → Str
  | [] => []
  | x :: xs => x ++ concatAll xs

/-- serve.py line 112: the placeholder entry for an empty corpus. -/
def placeholderLi : Str := S ("<li>No files found. Run ./html2md.sh first.</li>")

/-- serve.py lines 114-128: the index page template before `{links_html}`. -/
def idxHead : Str :=
  S ("<!DOCTYPE html>\n<html><head><meta charset=\"UTF-8\"><title>Articles</title>\n<style>\n    body \x7b max-width: 800px; margin: 2rem auto; padding: 0 2rem; font-family: -apple-system, sans-serif; \x7d\n    h1 \x7b color: #333; \x7d\n    ul \x7b list-style: none; padding: 0; \x7d\n    li \x7b margin: 1rem 0; display: flex; gap: 1rem; align-items: center; \x7d\n    a \x7b color: #0066cc; text-decoration: none; font-size: 1.1rem; \x7d\n    a:hover \x7b text-decoration: underline; \x7d\n    .pdf \x7b font-size: 0.9rem; background: #f0f0f0; padding: 4px 8px; border-radius: 4px; \x7d\n</style>\n</head><body>\n<h1>Articles</h1>\n<ul>")

/-- serve.py lines 127-128: the index page template after `{links_html}`. -/
def idxTail : Str := S ("</ul>\n</body></html>")

/-- serve.py lines 104-128: the index page body. -/
def indexBody (fs : Fs) : Str :=
  let links := (mdFiles fs).map (entryFor fs)
  let linksHtml := if links.isEmpty then placeholderLi else concatAll links
  idxHead ++ linksHtml ++ idxTail

/-- The observable response of one GET request. -/
inductive Response where
  | indexPage (body : Str)
  | rendered (body : Str)
  | staticOk (content : Str)
  | notFound
deriving DecidableEq

/-- Modelled from the spec: the generic static-file handler
(`SimpleHTTPRequestHandler`, Python standard library, not part of this
repository) serves the bytes of the resolved file when it exists and
otherwise reports not-found. -/
def staticServe (fs : Fs) (path : Str) : Response :=
  match fsLookup fs (stripDotSlash ('.' :: path)) with
  | some c => Response.staticOk c
  | none => Response.notFound

/-- serve.py lines 94-146: `MarkdownHandler.do_GET`, as a function of
the filesystem and the percent-decoded request path
(`urllib.parse.unquote` is applied upstream).  The handler never
writes to the filesystem, so the state component is unchanged. -/
def do_GET (fs : Fs) (path : Str) : Response × Fs :=
  if path = S ("/") ∨ path = ([] : Str) then
    (Response.indexPage (indexBody fs), fs)
  else if endsW (S (".md")) path then
    match fsLookup fs (stripDotSlash ('.' :: path)) with
    | some content => (Response.rendered (md_to_html content (stemPath ('.' :: path))), fs)
    | none => (staticServe fs path, fs)
  else (staticServe fs path, fs)

/-- Count of (possibly overlapping) occurrences of `pat` in `s`. -/
def countOcc (pat : Str) : Str → Nat
  | [] => 0
  | c :: cs => (if startsW pat (c :: cs) then 1 else 0) + countOcc pat cs

/-- Characters that may follow an ampersand inside one of the three
entities `&amp;`, `&lt;`, `&gt;`. -/
def tailChar (c : Char) : Bool :=
  (c == 'a') || (c == 'm') || (c == 'p') || (c == 'l') || (c == 't') || (c == 'g') || (c == ';')

/-- Does `s` begin with the character tail of one of the three
entities (the characters that must follow an `&`)? -/
def entStart (s : Str) : Bool :=
  startsW (S ("amp;")) s || startsW (S ("lt;")) s || startsW (S ("gt;")) s

/-- The escaping invariant: every ampersand in `s` begins one of the
entities `&amp;`, `&lt;`, `&gt;`, so no `&`, `<` or `>` of the
original input text is ever un-escaped. -/
def entOK : Str → Bool
  | [] => true
  | c :: cs => ((!(c == '&')) || entStart cs) && entOK cs

/-! ### Basic lemmas about prefixes and occurrences -/

lemma startsW_app_app (p s t : Str) : startsW (t ++ p) (t ++ s) = startsW p s := by
  induction t with
  | nil => rfl
  | cons c cs ih => simp [startsW, ih]

lemma startsW_refl_app (p s : Str) : startsW p (p ++ s) = true := by
  induction p with
  | nil => rfl
  | cons c cs ih => simp [startsW, ih]

lemma startsW_mono (p : Str) (t : Str) : ∀ s, startsW p s = true → startsW p (s ++ t) = true := by
  induction p with
  | nil => intro s _; rfl
  | cons c cs ih =>
    intro s h
    cases s with
    | nil => simp [startsW] at h
    | cons b bs =>
      simp [startsW] at h ⊢
      exact ⟨h.1, ih bs h.2⟩

lemma occurs_of_startsW (p s : Str) (h : startsW p s = true) : occurs p s = true := by
  cases s <;> simp [occurs, h]

lemma occurs_app_left (p t : Str) : ∀ s, occurs p s = true → occurs p (s ++ t) = true := by
  intro s
  induction s with
  | nil =>
    intro h
    simp [occurs] at h
    cases p with
    | nil =>
      apply occurs_of_startsW
      rfl
    | cons c cs => simp [startsW] at h
  | cons c cs ih =>
    intro h
    simp [occurs] at h ⊢
    rcases h with h | h
    · left
      have := startsW_mono p t (c :: cs) h
      simpa [startsW] using this
    · right
      exact ih h

lemma occurs_app_right (p s t : Str) (h : occurs p t = true) : occurs p (s ++ t) = true := by
  induction s with
  | nil => exact h
  | cons c cs ih => simp [occurs, ih]

/-! ### Decomposition of the page template around the title -/

lemma tplHead_split :
    tplHead = S ("<!DOCTYPE html>\n<html lang=\"en\">\n<head>\n    <meta charset=\"UTF-8\">\n    <meta name=\"viewport\" content=\"width=device-width, initial-scale=1.0\">\n    ") ++ S ("<title>") := by
  decide

lemma tplMid_split : tplMid = S ("</title>") ++ tplMid.drop 8 := by decide

/-! ### Claim theorems (part 1) -/

/-- C9: the title argument of `md_to_html` is interpolated into the
output verbatim and unescaped: the output decomposes as the fixed
template around the untouched `title`, the string
`<title>TITLE</title>` occurs literally in the output for every title,
and for a title containing `&`, `<`, `>` those characters appear
literally inside the `<title>` element. -/
theorem spec_c9 : ∀ t title : Str,
    md_to_html t title = tplHead ++ title ++ tplMid ++ mdBody t ++ tplTail ∧
    occurs (S ("<title>") ++ title ++ S ("</title>")) (md_to_html t title) = true ∧
    occurs (S ("<title>a&<>b</title>")) (md_to_html (S ("x&y")) (S ("a&<>b"))) = true := by
  intro t title
  refine ⟨rfl, ?_, by decide⟩
  show occurs _ (tplHead ++ title ++ tplMid ++ mdBody t ++ tplTail) = true
  rw [tplHead_split, tplMid_split]
  simp only [List.append_assoc]
  apply occurs_app_right
  apply occurs_of_startsW
  rw [startsW_app_app]
  rw [startsW_app_app]
  exact startsW_refl_app _ _

/-- C2 (amended): the rendered output is the transformed body wrapped
in the fixed template, which contains a navigation link back to the
index, inline styling, and the supplied title inside the `<title>`
element (the title is not additionally placed in the document body). -/
theorem spec_c2 : ∀ t title : Str,
    md_to_html t title = tplHead ++ title ++ tplMid ++ mdBody t ++ tplTail ∧
    occurs (S ("<nav class=\"nav\"><a href=\"/\">← Home</a></nav>")) (md_to_html t title) = true ∧
    occurs (S ("<style>")) (md_to_html t title) = true ∧
    occurs (S ("<title>") ++ title ++ S ("</title>")) (md_to_html t title) = true ∧
    occurs (mdBody t) (md_to_html t title) = true := by
  intro t title
  refine ⟨rfl, ?_, ?_, ?_, ?_⟩
  · show occurs _ (tplHead ++ title ++ tplMid ++ mdBody t ++ tplTail) = true
    simp only [List.append_assoc]
    apply occurs_app_right
    apply occurs_app_right
    apply occurs_app_left
    decide
  · show occurs _ (tplHead ++ title ++ tplMid ++ mdBody t ++ tplTail) = true
    simp only [List.append_assoc]
    apply occurs_app_right
    apply occurs_app_right
    apply occurs_app_left
    decide
  · show occurs _ (tplHead ++ title ++ tplMid ++ mdBody t ++ tplTail) = true
    rw [tplHead_split, tplMid_split]
    simp only [List.append_assoc]
    apply occurs_app_right
    apply occurs_of_startsW
    rw [startsW_app_app]
    rw [startsW_app_app]
    exact startsW_refl_app _ _
  · show occurs _ (tplHead ++ title ++ tplMid ++ mdBody t ++ tplTail) = true
    simp only [List.append_assoc]
    apply occurs_app_right
    apply occurs_app_right
    apply occurs_app_right
    apply occurs_of_startsW
    exact startsW_refl_app _ _

/-- C2 counterexample: the claim as stated requires the supplied title
to appear in a visible heading context in the document body, but the
template interpolates the title only into the `<title>` element: after
the `<body>` tag the title never occurs. -/
theorem spec_c2_cex :
    occurs (S ("ZQTITLE")) (dropThrough (S ("<body>")) (md_to_html (S ("hello")) (S ("ZQTITLE")))) = false := by
  decide

/-- C4: rendering the two-line input `- a\n- b` produces exactly two
list items wrapped in a single `<ul>` container with no paragraph tags
inside or around the container in the body. -/
theorem spec_c4 :
    mdBody (S ("- a\n- b")) = S ("<ul><li>a</li>\n<li>b</li></ul>") ∧
    countOcc (S ("<li>")) (mdBody (S ("- a\n- b"))) = 2 ∧
    countOcc (S ("<ul>")) (mdBody (S ("- a\n- b"))) = 1 ∧
    countOcc (S ("</ul>")) (mdBody (S ("- a\n- b"))) = 1 ∧
    occurs (S ("<p>")) (mdBody (S ("- a\n- b"))) = false := by
  decide

/-- C6: because the image rule runs before the link rule, the input
`![alt](img.png)` becomes an image element with the given src and alt,
and no anchor element (and no literal `![alt]`) survives in the body. -/
theorem spec_c6 :
    mdBody (S ("![alt](img.png)")) = S ("<p><img src=\"img.png\" alt=\"alt\" style=\"max-width:100%\"></p>") ∧
    occurs (S ("<a href")) (mdBody (S ("![alt](img.png)"))) = false ∧
    occurs (S ("![alt]")) (mdBody (S ("![alt](img.png)"))) = false := by
  decide

/-- C10: the companion-artifact path substitutes every occurrence of
`/md/` and `.md` in the document path, not only the markup directory
segment and the final extension. -/
theorem spec_c10 :
    derivedPdf (S ("proj/dist/md/x.md")) = S ("proj/dist/pdf/x.pdf") ∧
    derivedPdf (S ("proj/dist/md/a.md.md")) = S ("proj/dist/pdf/a.pdf.pdf") ∧
    derivedPdf (S ("x.md/dist/md/b.md")) = S ("x.pdf/dist/pdf/b.pdf") := by
  decide

/-- C7: an index entry carries the companion PDF link precisely when
the derived companion path exists in the filesystem at request time;
with `proj/dist/md/x.md` and `proj/dist/pdf/x.pdf` both present the
entry has both links, and without the pdf only the document link. -/
theorem spec_c7 :
    (∀ (fs : Fs) (md : Str),
      ((fsLookup fs (derivedPdf md)).isSome = true →
        entryFor fs md =
          S ("<li><a href=\"/") ++ md ++ S ("\">") ++ stemPath md ++ S ("</a>") ++
            (S (" <a href=\"/") ++ derivedPdf md ++ S ("\" class=\"pdf\">📄 PDF</a>")) ++ S ("</li>")) ∧
      ((fsLookup fs (derivedPdf md)).isSome = false →
        entryFor fs md =
          S ("<li><a href=\"/") ++ md ++ S ("\">") ++ stemPath md ++ S ("</a>") ++ S ("</li>"))) ∧
    occurs (S ("<li><a href=\"/proj/dist/md/x.md\">x</a> <a href=\"/proj/dist/pdf/x.pdf\" class=\"pdf\">📄 PDF</a></li>"))
      (indexBody [(S ("proj/dist/md/x.md"), S ("hi")), (S ("proj/dist/pdf/x.pdf"), S ("p"))]) = true ∧
    occurs (S ("<li><a href=\"/proj/dist/md/x.md\">x</a></li>"))
      (indexBody [(S ("proj/dist/md/x.md"), S ("hi"))]) = true ∧
    occurs (S ("class=\"pdf\""))
      (indexBody [(S ("proj/dist/md/x.md"), S ("hi"))]) = false := by
  refine ⟨?_, by decide, by decide, by decide⟩
  intro fs md
  constructor
  · intro h
    simp [entryFor, h, List.append_assoc]
  · intro h
    simp [entryFor, h, List.append_assoc]

/-- Witness for C7 at a concrete filesystem, with and without the pdf. -/
theorem spec_c7_witness :
    entryFor [(S ("proj/dist/md/x.md"), S ("hi")), (S ("proj/dist/pdf/x.pdf"), S ("p"))] (S ("proj/dist/md/x.md")) =
      S ("<li><a href=\"/") ++ S ("proj/dist/md/x.md") ++ S ("\">") ++ stemPath (S ("proj/dist/md/x.md")) ++ S ("</a>") ++
        (S (" <a href=\"/") ++ derivedPdf (S ("proj/dist/md/x.md")) ++ S ("\" class=\"pdf\">📄 PDF</a>")) ++ S ("</li>") ∧
    entryFor [(S ("proj/dist/md/x.md"), S ("hi"))] (S ("proj/dist/md/x.md")) =
      S ("<li><a href=\"/") ++ S ("proj/dist/md/x.md") ++ S ("\">") ++ stemPath (S ("proj/dist/md/x.md")) ++ S ("</a>") ++ S ("</li>") :=
  ⟨(spec_c7.1 _ _).1 (by decide), (spec_c7.1 _ _).2 (by decide)⟩

/-- C8: a GET for a path ending in `.md` whose resolved file does not
exist behaves exactly like any other missing static path: it falls
through to the generic static handler, which reports not-found. -/
theorem spec_c8 : ∀ (fs : Fs) (path : Str),
    endsW (S (".md")) path = true →
    fsLookup fs (stripDotSlash ('.' :: path)) = none →
    (do_GET fs path).1 = staticServe fs path ∧ staticServe fs path = Response.notFound := by
  intro fs path hmd hnone
  have hne : ¬(path = S ("/") ∨ path = ([] : Str)) := by
    rintro (h | h) <;> (subst h; revert hmd; decide)
  constructor
  · simp [do_GET, hne, hmd, hnone]
  · simp [staticServe, hnone]

/-- Witness for C8 on an empty filesystem and the path `/a.md`. -/
theorem spec_c8_witness :
    (do_GET [] (S ("/a.md"))).1 = staticServe [] (S ("/a.md")) ∧
    staticServe [] (S ("/a.md")) = Response.notFound :=
  spec_c8 [] (S ("/a.md")) (by decide) (by decide)

lemma do_GET_snd (fs : Fs) (path : Str) : (do_GET fs path).2 = fs := by
  by_cases h1 : path = S ("/") ∨ path = ([] : Str)
  · simp [do_GET, h1]
  · by_cases h2 : endsW (S (".md")) path = true
    · cases h3 : fsLookup fs (stripDotSlash ('.' :: path)) <;> simp [do_GET, h1, h2, h3]
    · simp [do_GET, h1] at h2 ⊢
      simp [h2]

/-- C3: rendering is deterministic and side-effect-free: the handler
never changes the filesystem (in particular it never mutates the
source file), a second identical request observes the same filesystem
and produces the identical response, and `md_to_html` is a pure
function of its two arguments. -/
theorem spec_c3 : ∀ (fs : Fs) (path : Str) (t title : Str),
    (do_GET fs path).2 = fs ∧
    (do_GET ((do_GET fs path).2) path).1 = (do_GET fs path).1 ∧
    md_to_html t title = md_to_html t title := by
  intro fs path t title
  refine ⟨do_GET_snd fs path, ?_, rfl⟩
  rw [do_GET_snd fs path]

/-! ### Line-anchored substitution lemmas (for the header claim) -/
lemma takeWhile_all (p : Char → Bool) : ∀ l : Str, (∀ c ∈ l, p c = true) → l.takeWhile p = l := by
  intro l h
  induction l with
  | nil => rfl
  | cons c cs ih =>
    have hc := h c (by simp)
    simp [List.takeWhile, hc]
    exact fun d hd => h d (List.mem_cons_of_mem _ hd)

lemma dropWhile_all (p : Char → Bool) : ∀ l : Str, (∀ c ∈ l, p c = true) → l.dropWhile p = [] := by
  intro l h
  induction l with
  | nil => rfl
  | cons c cs ih =>
    have hc := h c (by simp)
    simp [List.dropWhile, hc]
    exact fun d hd => h d (List.mem_cons_of_mem _ hd)

lemma lineSubF_mid_id (m : Str → Option (Str × Str)) :
    ∀ (n : Nat) (s : Str), s.length ≤ n → '\n' ∉ s → lineSubF n m false s = s := by
  intro n
  induction n with
  | zero => intro s _ _; rfl
  | succ n ih =>
    intro s hlen hnl
    cases s with
    | nil => rfl
    | cons c cs =>
      have hc : (c == '\n') = false := by
        simp [beq_iff_eq]
        intro h
        exact hnl (by simp [h])
      have hmid := ih cs (by simp at hlen; omega) (fun h => hnl (List.mem_cons_of_mem _ h))
      simp [lineSubF, hc, hmid]

lemma lineSub_whole (m : Str → Option (Str × Str)) (s e : Str) (hs : s ≠ [])
    (h : m s = some (e, [])) : lineSub m s = e := by
  cases s with
  | nil => exact absurd rfl hs
  | cons c cs =>
    show lineSubF (cs.length + 1 + 1) m true (c :: cs) = e
    have hz : lineSubF (cs.length + 1) m false [] = [] := by
      cases cs <;> rfl
    simp [lineSubF, h, hz]

lemma lineSub_noMatch (m : Str → Option (Str × Str)) (s : Str) (hnl : '\n' ∉ s)
    (h : m s = none) : lineSub m s = s := by
  cases s with
  | nil => rfl
  | cons c cs =>
    show lineSubF (cs.length + 1 + 1) m true (c :: cs) = c :: cs
    have hc : (c == '\n') = false := by
      simp [beq_iff_eq]
      intro hh
      exact hnl (by simp [hh])
    have hmid := lineSubF_mid_id m (cs.length + 1) cs (by omega) (fun hh => hnl (List.mem_cons_of_mem _ hh))
    simp [lineSubF, h, hc, hmid]

lemma headerPass_match (k : Nat) (rest : Str) (h1 : rest ≠ []) (h2 : '\n' ∉ rest) :
    headerPass k (hashes k ++ ' ' :: rest) = hOpen k ++ rest ++ hClose k := by
  have hpre : startsW (hashes k ++ [' ']) (hashes k ++ ' ' :: rest) = true := by
    rw [show hashes k ++ ' ' :: rest = hashes k ++ ([' '] ++ rest) by simp]
    rw [startsW_app_app]
    simp [startsW]
  have hdrop : (hashes k ++ ' ' :: rest).drop (hashes k ++ [' ']).length = rest := by
    rw [show hashes k ++ ' ' :: rest = (hashes k ++ [' ']) ++ rest by simp]
    exact List.drop_left _ _
  have htake : rest.takeWhile (fun c => !(c == '\n')) = rest := by
    apply takeWhile_all
    intro c hc
    simp [beq_iff_eq]
    intro hh
    exact h2 (hh ▸ hc)
  have hdw : rest.dropWhile (fun c => !(c == '\n')) = [] := by
    apply dropWhile_all
    intro c hc
    simp [beq_iff_eq]
    intro hh
    exact h2 (hh ▸ hc)
  have hre : rest.isEmpty = false := by
    cases rest with | nil => exact absurd rfl h1 | cons a b => rfl
  have hm : lineTagM (hashes k ++ [' ']) (hOpen k) (hClose k) (hashes k ++ ' ' :: rest) =
      some (hOpen k ++ rest ++ hClose k, []) := by
    unfold lineTagM
    simp only [hpre, if_true, hdrop, htake, hdw, hre]
    simp
  apply lineSub_whole _ _ _ _ hm
  cases k with
  | zero => simp
  | succ j => simp [hashes]

lemma headerPass_skip_pre (j : Nat) (s : Str) (hnl : '\n' ∉ s)
    (hpre : startsW (hashes j ++ [' ']) s = false) : headerPass j s = s := by
  apply lineSub_noMatch
  · exact hnl
  · unfold lineTagM
    simp [hpre]


/-- C5: a line of 1-6 hashes followed by a space becomes the heading of
matching level (longest prefix checked first); `# A` yields `<h1>A</h1>`,
`###### F` yields `<h6>F</h6>`, and a 7-hash line is not converted to
any heading tag. -/
theorem spec_c5 :
    (∀ (k : Nat) (rest : Str), 1 ≤ k → k ≤ 6 → rest ≠ [] → '\n' ∉ rest →
      headersStage (hashes k ++ ' ' :: rest) = hOpen k ++ rest ++ hClose k) ∧
    mdBody (S ("# A")) = S ("<p><h1>A</h1></p>") ∧
    mdBody (S ("###### F")) = S ("<p><h6>F</h6></p>") ∧
    mdBody (S ("####### G")) = S ("<p>####### G</p>") ∧
    occurs (S ("<h")) (mdBody (S ("####### G"))) = false := by
  refine ⟨?_, by decide, by decide, by decide, by decide⟩
  intro k rest hk1 hk6 hne hnl
  interval_cases k
  · unfold headersStage
    rw [headerPass_skip_pre 6 _ (by simp [hashes, List.replicate, List.mem_append, List.mem_cons, hnl]) (by simp [hashes, List.replicate, startsW]),
        headerPass_skip_pre 5 _ (by simp [hashes, List.replicate, List.mem_append, List.mem_cons, hnl]) (by simp [hashes, List.replicate, startsW]),
        headerPass_skip_pre 4 _ (by simp [hashes, List.replicate, List.mem_append, List.mem_cons, hnl]) (by simp [hashes, List.replicate, startsW]),
        headerPass_skip_pre 3 _ (by simp [hashes, List.replicate, List.mem_append, List.mem_cons, hnl]) (by simp [hashes, List.replicate, startsW]),
        headerPass_skip_pre 2 _ (by simp [hashes, List.replicate, List.mem_append, List.mem_cons, hnl]) (by simp [hashes, List.replicate, startsW]),
        headerPass_match 1 rest hne hnl]
  · unfold headersStage
    rw [headerPass_skip_pre 6 _ (by simp [hashes, List.replicate, List.mem_append, List.mem_cons, hnl]) (by simp [hashes, List.replicate, startsW]),
        headerPass_skip_pre 5 _ (by simp [hashes, List.replicate, List.mem_append, List.mem_cons, hnl]) (by simp [hashes, List.replicate, startsW]),
        headerPass_skip_pre 4 _ (by simp [hashes, List.replicate, List.mem_append, List.mem_cons, hnl]) (by simp [hashes, List.replicate, startsW]),
        headerPass_skip_pre 3 _ (by simp [hashes, List.replicate, List.mem_append, List.mem_cons, hnl]) (by simp [hashes, List.replicate, startsW]),
        headerPass_match 2 rest hne hnl,
        headerPass_skip_pre 1 _ (by simp [hOpen, hClose, List.mem_append, List.mem_cons, hnl]) (by simp [hashes, List.replicate, hOpen, startsW])]
  · unfold headersStage
    rw [headerPass_skip_pre 6 _ (by simp [hashes, List.replicate, List.mem_append, List.mem_cons, hnl]) (by simp [hashes, List.replicate, startsW]),
        headerPass_skip_pre 5 _ (by simp [hashes, List.replicate, List.mem_append, List.mem_cons, hnl]) (by simp [hashes, List.replicate, startsW]),
        headerPass_skip_pre 4 _ (by simp [hashes, List.replicate, List.mem_append, List.mem_cons, hnl]) (by simp [hashes, List.replicate, startsW]),
        headerPass_match 3 rest hne hnl,
        headerPass_skip_pre 2 _ (by simp [hOpen, hClose, List.mem_append, List.mem_cons, hnl]) (by simp [hashes, List.replicate, hOpen, startsW]),
        headerPass_skip_pre 1 _ (by simp [hOpen, hClose, List.mem_append, List.mem_cons, hnl]) (by simp [hashes, List.replicate, hOpen, startsW])]
  · unfold headersStage
    rw [headerPass_skip_pre 6 _ (by simp [hashes, List.replicate, List.mem_append, List.mem_cons, hnl]) (by simp [hashes, List.replicate, startsW]),
        headerPass_skip_pre 5 _ (by simp [hashes, List.replicate, List.mem_append, List.mem_cons, hnl]) (by simp [hashes, List.replicate, startsW]),
        headerPass_match 4 rest hne hnl,
        headerPass_skip_pre 3 _ (by simp [hOpen, hClose, List.mem_append, List.mem_cons, hnl]) (by simp [hashes, List.replicate, hOpen, startsW]),
        headerPass_skip_pre 2 _ (by simp [hOpen, hClose, List.mem_append, List.mem_cons, hnl]) (by simp [hashes, List.replicate, hOpen, startsW]),
        headerPass_skip_pre 1 _ (by simp [hOpen, hClose, List.mem_append, List.mem_cons, hnl]) (by simp [hashes, List.replicate, hOpen, startsW])]
  · unfold headersStage
    rw [headerPass_skip_pre 6 _ (by simp [hashes, List.replicate, List.mem_append, List.mem_cons, hnl]) (by simp [hashes, List.replicate, startsW]),
        headerPass_match 5 rest hne hnl,
        headerPass_skip_pre 4 _ (by simp [hOpen, hClose, List.mem_append, List.mem_cons, hnl]) (by simp [hashes, List.replicate, hOpen, startsW]),
        headerPass_skip_pre 3 _ (by simp [hOpen, hClose, List.mem_append, List.mem_cons, hnl]) (by simp [hashes, List.replicate, hOpen, startsW]),
        headerPass_skip_pre 2 _ (by simp [hOpen, hClose, List.mem_append, List.mem_cons, hnl]) (by simp [hashes, List.replicate, hOpen, startsW]),
        headerPass_skip_pre 1 _ (by simp [hOpen, hClose, List.mem_append, List.mem_cons, hnl]) (by simp [hashes, List.replicate, hOpen, startsW])]
  · unfold headersStage
    rw [headerPass_match 6 rest hne hnl,
        headerPass_skip_pre 5 _ (by simp [hOpen, hClose, List.mem_append, List.mem_cons, hnl]) (by simp [hashes, List.replicate, hOpen, startsW]),
        headerPass_skip_pre 4 _ (by simp [hOpen, hClose, List.mem_append, List.mem_cons, hnl]) (by simp [hashes, List.replicate, hOpen, startsW]),
        headerPass_skip_pre 3 _ (by simp [hOpen, hClose, List.mem_append, List.mem_cons, hnl]) (by simp [hashes, List.replicate, hOpen, startsW]),
        headerPass_skip_pre 2 _ (by simp [hOpen, hClose, List.mem_append, List.mem_cons, hnl]) (by simp [hashes, List.replicate, hOpen, startsW]),
        headerPass_skip_pre 1 _ (by simp [hOpen, hClose, List.mem_append, List.mem_cons, hnl]) (by simp [hashes, List.replicate, hOpen, startsW])]

/-- Witness for C5's general header rule at level 4 on the line `#### X`. -/
theorem spec_c5_witness :
    headersStage (hashes 4 ++ ' ' :: S ("X")) = hOpen 4 ++ S ("X") ++ hClose 4 :=
  spec_c5.1 4 (S ("X")) (by decide) (by decide) (by decide) (by decide)

/-! ### Entity-invariant basic lemmas -/

lemma startsW_length (p : Str) : ∀ s, startsW p s = true → p.length ≤ s.length := by
  induction p with
  | nil => intro s _; simp
  | cons c cs ih =>
    intro s h
    cases s with
    | nil => simp [startsW] at h
    | cons b bs =>
      simp [startsW] at h
      have := ih bs h.2
      simp
      omega

lemma startsW_drop_eq (p : Str) : ∀ s, startsW p s = true → s = p ++ s.drop p.length := by
  induction p with
  | nil => intro s _; simp
  | cons c cs ih =>
    intro s h
    cases s with
    | nil => simp [startsW] at h
    | cons b bs =>
      simp [startsW] at h
      have h2 := ih bs h.2
      simp [h.1]
      exact h2

lemma tailChar_elim (c : Char) (h : tailChar c = true) :
    c = 'a' ∨ c = 'm' ∨ c = 'p' ∨ c = 'l' ∨ c = 't' ∨ c = 'g' ∨ c = ';' := by
  simp [tailChar] at h
  tauto

lemma entStart_mono (s t : Str) (h : entStart s = true) : entStart (s ++ t) = true := by
  simp only [entStart, Bool.or_eq_true] at h ⊢
  rcases h with (h | h) | h
  · exact Or.inl (Or.inl (startsW_mono _ _ _ h))
  · exact Or.inl (Or.inr (startsW_mono _ _ _ h))
  · exact Or.inr (startsW_mono _ _ _ h)

lemma entStart_cases (s : Str) (h : entStart s = true) :
    s = S ("amp;") ++ s.drop 4 ∨ s = S ("lt;") ++ s.drop 3 ∨ s = S ("gt;") ++ s.drop 3 := by
  simp only [entStart, Bool.or_eq_true] at h
  rcases h with (h | h) | h
  · exact Or.inl (startsW_drop_eq _ _ h)
  · exact Or.inr (Or.inl (startsW_drop_eq _ _ h))
  · exact Or.inr (Or.inr (startsW_drop_eq _ _ h))

lemma entStart_tail_all (s : Str) (h : entStart s = true) :
    ∃ p x, s = p ++ x ∧ p ≠ [] ∧ (∀ c ∈ p, tailChar c = true) ∧ entOK p = true ∧
      (∀ W : Str, entStart (p ++ W) = true) := by
  rcases entStart_cases s h with hc | hc | hc
  · refine ⟨S ("amp;"), s.drop 4, hc, by decide, by decide, by decide, ?_⟩
    intro W
    simp only [entStart, Bool.or_eq_true]
    exact Or.inl (Or.inl (startsW_refl_app _ _))
  · refine ⟨S ("lt;"), s.drop 3, hc, by decide, by decide, by decide, ?_⟩
    intro W
    simp only [entStart, Bool.or_eq_true]
    exact Or.inl (Or.inr (startsW_refl_app _ _))
  · refine ⟨S ("gt;"), s.drop 3, hc, by decide, by decide, by decide, ?_⟩
    intro W
    simp only [entStart, Bool.or_eq_true]
    exact Or.inr (startsW_refl_app _ _)

lemma entOK_cons_iff (c : Char) (cs : Str) :
    entOK (c :: cs) = true ↔ ((c = '&' → entStart cs = true) ∧ entOK cs = true) := by
  by_cases hc : c = '&'
  · subst hc
    simp [entOK]
    try tauto
  · simp [entOK, hc]
    try tauto

lemma entOK_tail (c : Char) (cs : Str) (h : entOK (c :: cs) = true) : entOK cs = true :=
  ((entOK_cons_iff c cs).1 h).2

lemma entOK_append (a : Str) (ha : entOK a = true) : ∀ b, entOK b = true → entOK (a ++ b) = true := by
  induction a with
  | nil => intro b hb; exact hb
  | cons c cs ih =>
    intro b hb
    rw [entOK_cons_iff] at ha
    rw [List.cons_append, entOK_cons_iff]
    refine ⟨?_, ih ha.2 b hb⟩
    intro hc
    exact entStart_mono _ _ (ha.1 hc)

lemma entOK_suffix (a : Str) : ∀ b, entOK (a ++ b) = true → entOK b = true := by
  induction a with
  | nil => intro b h; exact h
  | cons c cs ih => intro b h; exact ih b (entOK_tail _ _ h)

lemma entOK_drop (s : Str) (n : Nat) (h : entOK s = true) : entOK (s.drop n) = true := by
  induction n generalizing s with
  | zero => exact h
  | succ n ih =>
    cases s with
    | nil => exact h
    | cons c cs => exact ih cs (entOK_tail _ _ h)

lemma entOK_dropWhile (q : Char → Bool) (s : Str) (h : entOK s = true) :
    entOK (s.dropWhile q) = true := by
  induction s with
  | nil => exact h
  | cons c cs ih =>
    rw [List.dropWhile_cons]
    cases hq : q c
    · simpa using h
    · simpa using ih (entOK_tail _ _ h)

lemma takeWhile_app_all (q : Char → Bool) (p : Str) (hp : ∀ c ∈ p, q c = true) (x : Str) :
    (p ++ x).takeWhile q = p ++ x.takeWhile q := by
  induction p with
  | nil => rfl
  | cons c cs ih =>
    have hc := hp c (by simp)
    rw [List.cons_append, List.takeWhile_cons, if_pos hc, ih (fun d hd => hp d (List.mem_cons_of_mem _ hd))]
    rfl

lemma entOK_takeWhile (q : Char → Bool) (hq : ∀ c, tailChar c = true → q c = true) :
    ∀ s, entOK s = true → entOK (s.takeWhile q) = true := by
  intro s
  induction s with
  | nil => intro h; exact h
  | cons c cs ih =>
    intro h
    rw [entOK_cons_iff] at h
    rw [List.takeWhile_cons]
    cases hqc : q c
    · rfl
    · simp only [if_true]
      rw [entOK_cons_iff]
      refine ⟨?_, ih h.2⟩
      intro hc
      obtain ⟨p, x, hpx, hpne, hpall, hpok, hpent⟩ := entStart_tail_all cs (h.1 hc)
      rw [hpx, takeWhile_app_all q p (fun d hd => hq d (hpall d hd)) x]
      exact hpent _

/-! ### Generic scanner preservation lemmas -/

lemma reSubF_fuel (m : Str → Option (Str × Str))
    (hsh : ∀ s e r, m s = some (e, r) → r.length < s.length) :
    ∀ n n' s, s.length < n → s.length < n' → reSubF n m s = reSubF n' m s := by
  intro n
  induction n with
  | zero => intro n' s h _; exact absurd h (Nat.not_lt_zero _)
  | succ n ih =>
    intro n' s h h'
    cases n' with
    | zero => exact absurd h' (Nat.not_lt_zero _)
    | succ n' =>
      cases s with
      | nil => rfl
      | cons c cs =>
        simp only [List.length_cons] at h h'
        cases hm : m (c :: cs) with
        | some er =>
          obtain ⟨e, r⟩ := er
          have hr : r.length < cs.length + 1 := by simpa using hsh _ _ _ hm
          simp only [reSubF, hm]
          rw [ih n' r (by omega) (by omega)]
        | none =>
          simp only [reSubF, hm]
          rw [ih n' cs (by omega) (by omega)]

lemma reSub_cons_none (m : Str → Option (Str × Str)) (c : Char) (cs : Str)
    (h : m (c :: cs) = none) : reSub m (c :: cs) = c :: reSub m cs := by
  show reSubF (cs.length + 1 + 1) m (c :: cs) = c :: reSubF (cs.length + 1) m cs
  simp [reSubF, h]

lemma reSub_cons_some (m : Str → Option (Str × Str))
    (hsh : ∀ s e r, m s = some (e, r) → r.length < s.length)
    (c : Char) (cs e r : Str) (h : m (c :: cs) = some (e, r)) :
    reSub m (c :: cs) = e ++ reSub m r := by
  show reSubF (cs.length + 1 + 1) m (c :: cs) = e ++ reSubF (r.length + 1) m r
  simp only [reSubF, h]
  congr 1
  have hr : r.length < cs.length + 1 := by simpa using hsh _ _ _ h
  exact reSubF_fuel m hsh _ _ r (by omega) (by omega)

lemma reSub_push (m : Str → Option (Str × Str))
    (hTail : ∀ c cs, tailChar c = true → m (c :: cs) = none) :
    ∀ p, (∀ c ∈ p, tailChar c = true) → ∀ x, reSub m (p ++ x) = p ++ reSub m x := by
  intro p
  induction p with
  | nil => intro _ x; rfl
  | cons c cs ih =>
    intro hp x
    rw [List.cons_append, reSub_cons_none m c (cs ++ x) (hTail c _ (hp c (by simp)))]
    rw [ih (fun d hd => hp d (List.mem_cons_of_mem _ hd)) x]
    rfl

lemma reSub_ent (m : Str → Option (Str × Str))
    (hsh : ∀ s e r, m s = some (e, r) → r.length < s.length)
    (hTail : ∀ c cs, tailChar c = true → m (c :: cs) = none)
    (hA : ∀ s e r, entOK s = true → m s = some (e, r) → entOK e = true ∧ entOK r = true) :
    ∀ s, entOK s = true → entOK (reSub m s) = true := by
  suffices H : ∀ (n : Nat) (s : Str), s.length ≤ n → entOK s = true → entOK (reSub m s) = true by
    intro s hs
    exact H s.length s le_rfl hs
  intro n
  induction n with
  | zero =>
    intro s hlen _
    have hnil : s = [] := List.length_eq_zero.1 (Nat.le_zero.1 hlen)
    subst hnil
    rfl
  | succ n ih =>
    intro s hlen hs
    cases s with
    | nil => rfl
    | cons c cs =>
      have hcs : entOK cs = true := entOK_tail _ _ hs
      have hlen' : cs.length ≤ n := by simp at hlen; omega
      cases hm : m (c :: cs) with
      | some er =>
        obtain ⟨e, r⟩ := er
        rw [reSub_cons_some m hsh c cs e r hm]
        have hA' := hA _ _ _ hs hm
        have hrlen : r.length ≤ n := by
          have := hsh _ _ _ hm
          simp at this
          omega
        exact entOK_append e hA'.1 _ (ih r hrlen hA'.2)
      | none =>
        rw [reSub_cons_none m c cs hm]
        by_cases hc : c = '&'
        · subst hc
          have hst := ((entOK_cons_iff _ _).1 hs).1 rfl
          obtain ⟨p, x, hpx, hpne, hpall, hpok, hpent⟩ := entStart_tail_all cs hst
          rw [entOK_cons_iff]
          refine ⟨?_, ih cs hlen' hcs⟩
          intro _
          rw [hpx, reSub_push m hTail p hpall x]
          exact hpent _
        · rw [entOK_cons_iff]
          exact ⟨fun h => absurd h hc, ih cs hlen' hcs⟩

lemma lineSubF_fuel (m : Str → Option (Str × Str))
    (hsh : ∀ s e r, m s = some (e, r) → r.length < s.length) :
    ∀ n n' (mode : Bool) s, s.length < n → s.length < n' →
      lineSubF n m mode s = lineSubF n' m mode s := by
  intro n
  induction n with
  | zero => intro n' mode s h _; exact absurd h (Nat.not_lt_zero _)
  | succ n ih =>
    intro n' mode s h h'
    cases n' with
    | zero => exact absurd h' (Nat.not_lt_zero _)
    | succ n' =>
      cases s with
      | nil => cases mode <;> rfl
      | cons c cs =>
        simp only [List.length_cons] at h h'
        cases mode with
        | false =>
          cases hc : c == '\n' <;> simp only [lineSubF, hc] <;>
            simp <;> rw [ih n' _ cs (by omega) (by omega)]
        | true =>
          cases hm : m (c :: cs) with
          | some er =>
            obtain ⟨e, r⟩ := er
            have hr : r.length < cs.length + 1 := by simpa using hsh _ _ _ hm
            simp only [lineSubF, hm]
            simp
            rw [ih n' false r (by omega) (by omega)]
          | none =>
            cases hc : c == '\n' <;> simp only [lineSubF, hm, hc] <;>
              simp <;> rw [ih n' _ cs (by omega) (by omega)]

lemma lineSubF_push_mid (m : Str → Option (Str × Str))
    (hsh : ∀ s e r, m s = some (e, r) → r.length < s.length) :
    ∀ p, '\n' ∉ p → ∀ (n : Nat) (x : Str), p.length + x.length < n →
      lineSubF n m false (p ++ x) = p ++ lineSubF n m false x := by
  intro p
  induction p with
  | nil => intro _ n x _; rfl
  | cons c cs ih =>
    intro hnp n x hlen
    cases n with
    | zero => simp at hlen
    | succ n =>
      have hc : (c == '\n') = false := by
        simp [beq_iff_eq]
        intro h
        exact hnp (by simp [h])
      simp only [List.length_cons] at hlen
      simp only [List.cons_append, lineSubF, hc]
      simp
      rw [ih (fun h => hnp (List.mem_cons_of_mem _ h)) n x (by omega)]
      rw [lineSubF_fuel m hsh n (n + 1) false x (by omega) (by omega)]

lemma lineSubF_ent (m : Str → Option (Str × Str))
    (hsh : ∀ s e r, m s = some (e, r) → r.length < s.length)
    (hA : ∀ s e r, entOK s = true → m s = some (e, r) → entOK e = true ∧ entOK r = true) :
    ∀ (n : Nat) (mode : Bool) (s : Str), s.length < n → entOK s = true →
      entOK (lineSubF n m mode s) = true := by
  intro n
  induction n with
  | zero => intro mode s h _; exact absurd h (Nat.not_lt_zero _)
  | succ n ih =>
    intro mode s hlen hs
    cases s with
    | nil => cases mode <;> rfl
    | cons c cs =>
      have hcs : entOK cs = true := entOK_tail _ _ hs
      have hlcs : cs.length < n := by simp at hlen; omega
      have copy : entOK (if (c == '\n') = true then c :: lineSubF n m true cs
          else c :: lineSubF n m false cs) = true := by
        by_cases hnl : c = '\n'
        · rw [if_pos (by simp [hnl])]
          rw [entOK_cons_iff]
          refine ⟨?_, ih true cs hlcs hcs⟩
          intro hcc
          rw [hnl] at hcc
          exact absurd hcc (by decide)
        · rw [if_neg (by simp [beq_iff_eq, hnl])]
          by_cases hamp : c = '&'
          · subst hamp
            have hst := ((entOK_cons_iff _ _).1 hs).1 rfl
            obtain ⟨p, x, hpx, hpne, hpall, hpok, hpent⟩ := entStart_tail_all cs hst
            have hnpp : '\n' ∉ p := by
              intro hmem
              have := hpall _ hmem
              exact absurd this (by decide)
            rw [entOK_cons_iff]
            refine ⟨?_, ih false cs hlcs hcs⟩
            intro _
            have hplen : p.length + x.length < n := by
              have : cs.length = p.length + x.length := by rw [hpx]; simp
              omega
            rw [hpx, lineSubF_push_mid m hsh p hnpp n x hplen]
            exact hpent _
          · rw [entOK_cons_iff]
            exact ⟨fun h => absurd h hamp, ih false cs hlcs hcs⟩
      cases mode with
      | false =>
        simp only [lineSubF]
        rw [if_neg (by simp)]
        exact copy
      | true =>
        cases hm : m (c :: cs) with
        | some er =>
          obtain ⟨e, r⟩ := er
          simp only [lineSubF, hm]
          simp only [if_true]
          have hA' := hA _ _ _ hs hm
          have hr : r.length < n := by
            have := hsh _ _ _ hm
            simp at this
            omega
          exact entOK_append e hA'.1 _ (ih false r hr hA'.2)
        | none =>
          simp only [lineSubF, hm]
          simp only [if_true]
          exact copy

lemma lineSub_ent (m : Str → Option (Str × Str))
    (hsh : ∀ s e r, m s = some (e, r) → r.length < s.length)
    (hA : ∀ s e r, entOK s = true → m s = some (e, r) → entOK e = true ∧ entOK r = true)
    (s : Str) (hs : entOK s = true) : entOK (lineSub m s) = true :=
  lineSubF_ent m hsh hA (s.length + 1) true s (by omega) hs

/-! ### Matcher-specific entity lemmas: literal replacements -/

lemma litM_shrink (old new : Str) (ho : old ≠ []) :
    ∀ s e r, litM old new s = some (e, r) → r.length < s.length := by
  intro s e r h
  by_cases hp : startsW old s = true
  · simp [litM, hp] at h
    obtain ⟨-, hr⟩ := h
    have h1 : 1 ≤ old.length := by cases old with | nil => exact absurd rfl ho | cons a b => simp
    have h2 := startsW_length old s hp
    rw [← hr]
    simp [List.length_drop]
    omega
  · simp [litM, hp] at h

lemma litM_none_tail (o : Char) (os new : Str) (ho : tailChar o = false) :
    ∀ c cs, tailChar c = true → litM (o :: os) new (c :: cs) = none := by
  intro c cs hc
  have hne : (o == c) = false := by
    simp [beq_iff_eq]
    intro h
    rw [h, hc] at ho
    exact absurd ho (by decide)
  simp [litM, startsW, hne]

lemma litM_ent (old new : Str) (hn : entOK new = true) :
    ∀ s e r, entOK s = true → litM old new s = some (e, r) →
      entOK e = true ∧ entOK r = true := by
  intro s e r hs h
  by_cases hp : startsW old s = true
  · simp [litM, hp] at h
    obtain ⟨he, hr⟩ := h
    exact ⟨he ▸ hn, hr ▸ entOK_drop s old.length hs⟩
  · simp [litM, hp] at h

/-! ### Matcher-specific entity lemmas: lazy spans -/

lemma fc_shrink (bad : Char → Bool) (close : Str) :
    ∀ s g r, fc bad close s = some (g, r) → r.length < s.length := by
  intro s
  induction s with
  | nil => intro g r h; simp [fc] at h
  | cons c cs ih =>
    intro g r h
    simp only [fc] at h
    cases hbc : bad c with
    | true => simp [hbc] at h
    | false =>
      simp only [hbc] at h
      by_cases hsw : startsW close cs = true
      · simp [hsw] at h
        obtain ⟨-, hr⟩ := h
        rw [← hr]
        simp [List.length_drop]
        omega
      · have hsw' : startsW close cs = false := by simpa using hsw
        simp only [hsw'] at h
        cases hfc : fc bad close cs with
        | none => simp [hfc] at h
        | some gr =>
          simp [hfc] at h
          obtain ⟨-, hr⟩ := h
          have := ih gr.1 gr.2 (by rw [hfc])
          rw [← hr]
          simp
          omega

lemma spanM_shrink (op close otag ctag : Str) (bad : Char → Bool) :
    ∀ s e r, spanM op close otag ctag bad s = some (e, r) → r.length < s.length := by
  intro s e r h
  by_cases hp : startsW op s = true
  · simp only [spanM, hp, if_true] at h
    cases hfc : fc bad close (s.drop op.length) with
    | none => simp [hfc] at h
    | some gr =>
      simp [hfc] at h
      obtain ⟨-, hr⟩ := h
      have h1 := fc_shrink bad close _ gr.1 gr.2 (by rw [hfc])
      have h2 : (s.drop op.length).length ≤ s.length := by simp [List.length_drop]
      rw [← hr]
      omega
  · simp [spanM, hp] at h

lemma spanM_none_tail (o : Char) (os close otag ctag : Str) (bad : Char → Bool)
    (ho : tailChar o = false) :
    ∀ c cs, tailChar c = true → spanM (o :: os) close otag ctag bad (c :: cs) = none := by
  intro c cs hc
  have hne : (o == c) = false := by
    simp [beq_iff_eq]
    intro h
    rw [h, hc] at ho
    exact absurd ho (by decide)
  simp [spanM, startsW, hne]

lemma fc_push (bad : Char → Bool) (cl0 : Char) (clr : Str)
    (hbad : ∀ c, tailChar c = true → bad c = false)
    (hcl : tailChar cl0 = false) :
    ∀ p, p ≠ [] → (∀ c ∈ p, tailChar c = true) → ∀ x,
      fc bad (cl0 :: clr) (p ++ x) =
        (if startsW (cl0 :: clr) x then some (p, x.drop (cl0 :: clr).length)
         else match fc bad (cl0 :: clr) x with
              | some gr => some (p ++ gr.1, gr.2)
              | none => none) := by
  intro p
  induction p with
  | nil => intro h; exact absurd rfl h
  | cons c cs ih =>
    intro _ hall x
    have hbadc : bad c = false := hbad c (hall c (by simp))
    cases cs with
    | nil =>
      simp only [List.cons_append, List.nil_append, fc, hbadc]
      cases hsw : startsW (cl0 :: clr) x with
      | true =>
        simp [hsw]
      | false =>
        cases hfc : fc bad (cl0 :: clr) x with
        | none => simp [hsw, hfc]
        | some gr => simp [hsw, hfc]
    | cons d ds =>
      have hd : tailChar d = true := hall d (by simp)
      have hne : (cl0 == d) = false := by
        simp [beq_iff_eq]
        intro h
        rw [h, hd] at hcl
        exact absurd hcl (by decide)
      have hswd : startsW (cl0 :: clr) ((d :: ds) ++ x) = false := by
        rw [List.cons_append, startsW]
        simp [hne]
      simp only [List.cons_append] at hswd ⊢
      rw [fc]
      simp only [hbadc, Bool.false_eq_true, if_false, hswd]
      have ih2 := ih (by simp) (fun u hu => hall u (List.mem_cons_of_mem _ hu)) x
      rw [List.cons_append] at ih2
      rw [ih2]
      cases hsw : startsW (cl0 :: clr) x with
      | true => simp [hsw]
      | false =>
        cases hfc : fc bad (cl0 :: clr) x with
        | none => simp [hsw, hfc]
        | some gr => simp [hsw, hfc]

lemma fc_ent (bad : Char → Bool) (cl0 : Char) (clr : Str)
    (hbad : ∀ c, tailChar c = true → bad c = false)
    (hcl : tailChar cl0 = false) :
    ∀ (n : Nat) (s : Str), s.length ≤ n → entOK s = true →
      ∀ g r, fc bad (cl0 :: clr) s = some (g, r) → entOK g = true ∧ entOK r = true := by
  intro n
  induction n with
  | zero =>
    intro s hlen _ g r h
    have hnil : s = [] := List.length_eq_zero.1 (Nat.le_zero.1 hlen)
    subst hnil
    simp [fc] at h
  | succ n ih =>
    intro s hlen hs g r h
    cases s with
    | nil => simp [fc] at h
    | cons c cs =>
      have hcs : entOK cs = true := entOK_tail _ _ hs
      have hlcs : cs.length ≤ n := by simp at hlen; omega
      simp only [fc] at h
      cases hbc : bad c with
      | true => simp [hbc] at h
      | false =>
        simp only [hbc, Bool.false_eq_true, if_false] at h
        by_cases hc : c = '&'
        · subst hc
          have hst := ((entOK_cons_iff _ _).1 hs).1 rfl
          obtain ⟨p, x, hpx, hpne, hpall, hpok, hpent⟩ := entStart_tail_all cs hst
          have hswcs : startsW (cl0 :: clr) cs = false := by
            rw [hpx]
            cases p with
            | nil => exact absurd rfl hpne
            | cons p0 ps =>
              have hp0 : tailChar p0 = true := hpall p0 (by simp)
              have hne : (cl0 == p0) = false := by
                simp [beq_iff_eq]
                intro hh
                rw [hh, hp0] at hcl
                exact absurd hcl (by decide)
              rw [List.cons_append, startsW]
              simp [hne]
          simp only [hswcs, Bool.false_eq_true, if_false] at h
          rw [hpx, fc_push bad cl0 clr hbad hcl p hpne hpall x] at h
          have hx : entOK x = true := entOK_suffix p x (hpx ▸ hcs)
          have hxlen : x.length ≤ n := by
            have : cs.length = p.length + x.length := by rw [hpx]; simp
            have hp1 : 1 ≤ p.length := by
              cases p with
              | nil => exact absurd rfl hpne
              | cons a b => simp
            omega
          cases hsw : startsW (cl0 :: clr) x with
          | true =>
            simp only [hsw, if_true] at h
            have hg : g = '&' :: p := by
              have := congrArg Prod.fst (Option.some.inj h)
              simpa using this.symm
            have hr : r = x.drop (cl0 :: clr).length := by
              have := congrArg Prod.snd (Option.some.inj h)
              simpa using this.symm
            constructor
            · rw [hg, entOK_cons_iff]
              refine ⟨?_, hpok⟩
              intro _
              have := hpent []
              simpa using this
            · rw [hr]
              exact entOK_drop x _ hx
          | false =>
            simp only [hsw, Bool.false_eq_true, if_false] at h
            cases hfc : fc bad (cl0 :: clr) x with
            | none => simp [hfc] at h
            | some gr =>
              obtain ⟨g1, g2⟩ := gr
              simp only [hfc] at h
              have hg : g = '&' :: (p ++ g1) := by
                have := congrArg Prod.fst (Option.some.inj h)
                simpa using this.symm
              have hr : r = g2 := by
                have := congrArg Prod.snd (Option.some.inj h)
                simpa using this.symm
              have hent := ih x hxlen hx g1 g2 hfc
              constructor
              · rw [hg, entOK_cons_iff]
                exact ⟨fun _ => hpent g1, entOK_append p hpok g1 hent.1⟩
              · rw [hr]
                exact hent.2
        · by_cases hsw : startsW (cl0 :: clr) cs = true
          · simp only [hsw, if_true] at h
            have hg : g = [c] := by
              have := congrArg Prod.fst (Option.some.inj h)
              simpa using this.symm
            have hr : r = cs.drop (cl0 :: clr).length := by
              have := congrArg Prod.snd (Option.some.inj h)
              simpa using this.symm
            constructor
            · rw [hg, entOK_cons_iff]
              exact ⟨fun hh => absurd hh hc, rfl⟩
            · rw [hr]
              exact entOK_drop cs _ hcs
          · have hsw' : startsW (cl0 :: clr) cs = false := by simpa using hsw
            simp only [hsw', Bool.false_eq_true, if_false] at h
            cases hfc : fc bad (cl0 :: clr) cs with
            | none => simp [hfc] at h
            | some gr =>
              obtain ⟨g1, g2⟩ := gr
              simp only [hfc] at h
              have hg : g = c :: g1 := by
                have := congrArg Prod.fst (Option.some.inj h)
                simpa using this.symm
              have hr : r = g2 := by
                have := congrArg Prod.snd (Option.some.inj h)
                simpa using this.symm
              have hent := ih cs hlcs hcs g1 g2 hfc
              constructor
              · rw [hg, entOK_cons_iff]
                exact ⟨fun hh => absurd hh hc, hent.1⟩
              · rw [hr]
                exact hent.2

lemma spanM_ent (op : Str) (cl0 : Char) (clr : Str) (otag ctag : Str) (bad : Char → Bool)
    (hbad : ∀ c, tailChar c = true → bad c = false)
    (hcl : tailChar cl0 = false)
    (hot : entOK otag = true) (hct : entOK ctag = true) :
    ∀ s e r, entOK s = true → spanM op (cl0 :: clr) otag ctag bad s = some (e, r) →
      entOK e = true ∧ entOK r = true := by
  intro s e r hs h
  by_cases hp : startsW op s = true
  · simp only [spanM, hp, if_true] at h
    cases hfc : fc bad (cl0 :: clr) (s.drop op.length) with
    | none => simp [hfc] at h
    | some gr =>
      obtain ⟨g1, g2⟩ := gr
      simp only [hfc] at h
      have he : e = otag ++ g1 ++ ctag := by
        have := congrArg Prod.fst (Option.some.inj h)
        simpa using this.symm
      have hr : r = g2 := by
        have := congrArg Prod.snd (Option.some.inj h)
        simpa using this.symm
      have hent := fc_ent bad cl0 clr hbad hcl (s.drop op.length).length (s.drop op.length)
        le_rfl (entOK_drop s op.length hs) g1 g2 hfc
      constructor
      · rw [he]
        exact entOK_append _ (entOK_append otag hot g1 hent.1) ctag hct
      · rw [hr]
        exact hent.2
  · simp [spanM, hp] at h

/-! ### Small character and length helpers -/

lemma dropWhile_length_le (p : Char → Bool) : ∀ l : Str, (l.dropWhile p).length ≤ l.length := by
  intro l
  induction l with
  | nil => simp
  | cons c cs ih =>
    rw [List.dropWhile_cons]
    cases hp : p c
    · simp
    · simp
      omega

lemma takeWhile_length_le (p : Char → Bool) : ∀ l : Str, (l.takeWhile p).length ≤ l.length := by
  intro l
  induction l with
  | nil => simp
  | cons c cs ih =>
    rw [List.takeWhile_cons]
    cases hp : p c
    · simp
    · simp
      omega

lemma getLastD_mem : ∀ (l : Str) (d : Char), l ≠ [] → l.getLastD d ∈ l := by
  intro l
  induction l with
  | nil => intro d h; exact absurd rfl h
  | cons c cs ih =>
    intro d _
    cases cs with
    | nil => simp [List.getLastD]
    | cons b bs =>
      rw [List.getLastD_cons]
      exact List.mem_cons_of_mem _ (ih c (by simp))

lemma tailChar_not_nl : ∀ c, tailChar c = true → (!(c == '\n')) = true := by
  intro c h
  rcases tailChar_elim c h with rfl | rfl | rfl | rfl | rfl | rfl | rfl <;> decide

lemma tailChar_not_rb : ∀ c, tailChar c = true → (!(c == ']')) = true := by
  intro c h
  rcases tailChar_elim c h with rfl | rfl | rfl | rfl | rfl | rfl | rfl <;> decide

lemma tailChar_not_rp : ∀ c, tailChar c = true → (!(c == ')')) = true := by
  intro c h
  rcases tailChar_elim c h with rfl | rfl | rfl | rfl | rfl | rfl | rfl <;> decide

lemma tailChar_not_digit : ∀ c, tailChar c = true → isPyDigit c = false := by
  intro c h
  rcases tailChar_elim c h with rfl | rfl | rfl | rfl | rfl | rfl | rfl <;> decide

lemma pySpace_not_amp : ∀ c, isPySpace c = true → (c == '&') = false := by
  intro c h
  simp [beq_iff_eq]
  intro hc
  rw [hc] at h
  exact absurd h (by decide)

lemma mem_of_mem_dropWhile (q : Char → Bool) : ∀ (l : Str) (a : Char), a ∈ l.dropWhile q → a ∈ l := by
  intro l
  induction l with
  | nil => intro a h; exact h
  | cons c cs ih =>
    intro a h
    rw [List.dropWhile_cons] at h
    by_cases hq : q c = true
    · rw [if_pos hq] at h
      exact List.mem_cons_of_mem _ (ih a h)
    · rw [if_neg hq] at h
      exact h

lemma entOK_no_amp : ∀ l : Str, (∀ c ∈ l, (c == '&') = false) → entOK l = true := by
  intro l h
  induction l with
  | nil => rfl
  | cons c cs ih =>
    rw [entOK_cons_iff]
    refine ⟨fun hc => ?_, ih (fun d hd => h d (List.mem_cons_of_mem _ hd))⟩
    have hcc := h c (by simp)
    rw [hc] at hcc
    exact absurd hcc (by decide)

/-! ### Matcher-specific entity lemmas: line-anchored tags -/

lemma lineTagM_shrink (pre otag ctag : Str) (hpre : pre ≠ []) :
    ∀ s e r, lineTagM pre otag ctag s = some (e, r) → r.length < s.length := by
  intro s e r h
  by_cases hp : startsW pre s = true
  · simp only [lineTagM, hp, if_true] at h
    by_cases hg : ((s.drop pre.length).takeWhile (fun c => !(c == '\n'))).isEmpty = true
    · simp [hg] at h
    · have hg' : ((s.drop pre.length).takeWhile (fun c => !(c == '\n'))).isEmpty = false := by
        simpa using hg
      simp only [hg', Bool.false_eq_true, if_false, Option.some.injEq, Prod.mk.injEq] at h
      have hr : r = (s.drop pre.length).dropWhile (fun c => !(c == '\n')) := h.2.symm
      have h1 : 1 ≤ pre.length := by
        cases pre with
        | nil => exact absurd rfl hpre
        | cons a b => simp
      have h2 := startsW_length pre s hp
      have h3 := dropWhile_length_le (fun c => !(c == '\n')) (s.drop pre.length)
      rw [hr]
      simp [List.length_drop] at h3 ⊢
      omega
  · simp [lineTagM, hp] at h

lemma lineTagM_none_tail (p0 : Char) (ps otag ctag : Str) (hp0 : tailChar p0 = false) :
    ∀ c cs, tailChar c = true → lineTagM (p0 :: ps) otag ctag (c :: cs) = none := by
  intro c cs hc
  have hne : (p0 == c) = false := by
    simp [beq_iff_eq]
    intro h
    rw [h, hc] at hp0
    exact absurd hp0 (by decide)
  simp [lineTagM, startsW, hne]

lemma lineTagM_ent (pre otag ctag : Str) (hot : entOK otag = true) (hct : entOK ctag = true) :
    ∀ s e r, entOK s = true → lineTagM pre otag ctag s = some (e, r) →
      entOK e = true ∧ entOK r = true := by
  intro s e r hs h
  by_cases hp : startsW pre s = true
  · simp only [lineTagM, hp, if_true] at h
    by_cases hg : ((s.drop pre.length).takeWhile (fun c => !(c == '\n'))).isEmpty = true
    · simp [hg] at h
    · have hg' : ((s.drop pre.length).takeWhile (fun c => !(c == '\n'))).isEmpty = false := by
        simpa using hg
      simp only [hg', Bool.false_eq_true, if_false, Option.some.injEq, Prod.mk.injEq] at h
      have hdrop : entOK (s.drop pre.length) = true := entOK_drop s pre.length hs
      constructor
      · rw [← h.1]
        exact entOK_append _ (entOK_append otag hot _
          (entOK_takeWhile _ tailChar_not_nl _ hdrop)) ctag hct
      · rw [← h.2]
        exact entOK_dropWhile _ _ hdrop
  · simp [lineTagM, hp] at h

/-! ### Matcher-specific entity lemmas: ordered lists -/

lemma ordM_none_tail : ∀ c cs, tailChar c = true → ordM (c :: cs) = none := by
  intro c cs hc
  simp [ordM, List.takeWhile_cons, tailChar_not_digit c hc]

lemma ordM_shrink : ∀ s e r, ordM s = some (e, r) → r.length < s.length := by
  intro s e r h
  by_cases hd : (s.takeWhile isPyDigit).isEmpty = true
  · simp only [ordM, hd, if_true] at h
    exact Option.noConfusion h
  · have hd' : (s.takeWhile isPyDigit).isEmpty = false := by simpa using hd
    have hD1 : 1 ≤ (s.takeWhile isPyDigit).length := by
      cases hcase : s.takeWhile isPyDigit with
      | nil => rw [hcase] at hd'; simp at hd'
      | cons a b => simp
    have hDs : (s.takeWhile isPyDigit).length ≤ s.length := takeWhile_length_le _ s
    simp only [ordM, hd', Bool.false_eq_true, if_false] at h
    by_cases ht : startsW (S (".")) (s.drop (s.takeWhile isPyDigit).length) = true
    · simp only [ht, if_true] at h
      have hwr2 := takeWhile_length_le isPySpace ((s.drop (s.takeWhile isPyDigit).length).drop 1)
      by_cases hw : (((s.drop (s.takeWhile isPyDigit).length).drop 1).takeWhile isPySpace).isEmpty = true
      · simp only [hw, if_true] at h
        exact Option.noConfusion h
      · have hw' : (((s.drop (s.takeWhile isPyDigit).length).drop 1).takeWhile isPySpace).isEmpty = false := by
          simpa using hw
        simp only [hw', Bool.false_eq_true, if_false] at h
        by_cases hg : ((((s.drop (s.takeWhile isPyDigit).length).drop 1).drop
            (((s.drop (s.takeWhile isPyDigit).length).drop 1).takeWhile isPySpace).length).takeWhile
            (fun c => !(c == '\n'))).isEmpty = true
        · simp only [hg, if_true] at h
          by_cases hbt : ((((s.drop (s.takeWhile isPyDigit).length).drop 1).drop
              (((s.drop (s.takeWhile isPyDigit).length).drop 1).takeWhile isPySpace).length).isEmpty &&
              decide (2 ≤ (((((s.drop (s.takeWhile isPyDigit).length).drop 1).takeWhile
                isPySpace).reverse.dropWhile (fun c => c == '\n')).reverse).length)) = true
          · simp only [hbt, if_true, Option.some.injEq, Prod.mk.injEq] at h
            rw [← h.2]
            have hw2 := dropWhile_length_le (fun c => c == '\n')
              ((((s.drop (s.takeWhile isPyDigit).length).drop 1).takeWhile isPySpace).reverse)
            simp [List.length_drop, List.length_reverse] at hwr2 hw2 ⊢
            omega
          · have hbt' := eq_false_of_ne_true hbt
            simp only [hbt', Bool.false_eq_true, if_false] at h
            exact Option.noConfusion h
        · have hg' := eq_false_of_ne_true hg
          simp only [hg', Bool.false_eq_true, if_false, Option.some.injEq, Prod.mk.injEq] at h
          rw [← h.2]
          simp [List.length_drop]
          omega
    · have ht' := eq_false_of_ne_true ht
      simp only [ht', Bool.false_eq_true, if_false] at h
      exact Option.noConfusion h

lemma ordM_ent : ∀ s e r, entOK s = true → ordM s = some (e, r) →
    entOK e = true ∧ entOK r = true := by
  intro s e r hs h
  by_cases hd : (s.takeWhile isPyDigit).isEmpty = true
  · simp only [ordM, hd, if_true] at h
    exact Option.noConfusion h
  · have hd' : (s.takeWhile isPyDigit).isEmpty = false := by simpa using hd
    simp only [ordM, hd', Bool.false_eq_true, if_false] at h
    by_cases ht : startsW (S (".")) (s.drop (s.takeWhile isPyDigit).length) = true
    · simp only [ht, if_true] at h
      have hr2 : entOK ((s.drop (s.takeWhile isPyDigit).length).drop 1) = true :=
        entOK_drop _ _ (entOK_drop s _ hs)
      have hwsp : ∀ c ∈ ((s.drop (s.takeWhile isPyDigit).length).drop 1).takeWhile isPySpace,
          isPySpace c = true := fun c hc => List.mem_takeWhile_imp hc
      have hwOK : entOK (((s.drop (s.takeWhile isPyDigit).length).drop 1).takeWhile isPySpace) = true :=
        entOK_no_amp _ (fun c hc => pySpace_not_amp c (hwsp c hc))
      by_cases hw : (((s.drop (s.takeWhile isPyDigit).length).drop 1).takeWhile isPySpace).isEmpty = true
      · simp only [hw, if_true] at h
        exact Option.noConfusion h
      · have hw' : (((s.drop (s.takeWhile isPyDigit).length).drop 1).takeWhile isPySpace).isEmpty = false := by
          simpa using hw
        simp only [hw', Bool.false_eq_true, if_false] at h
        have hpOK : entOK (((s.drop (s.takeWhile isPyDigit).length).drop 1).drop
            (((s.drop (s.takeWhile isPyDigit).length).drop 1).takeWhile isPySpace).length) = true :=
          entOK_drop _ _ hr2
        by_cases hg : ((((s.drop (s.takeWhile isPyDigit).length).drop 1).drop
            (((s.drop (s.takeWhile isPyDigit).length).drop 1).takeWhile isPySpace).length).takeWhile
            (fun c => !(c == '\n'))).isEmpty = true
        · simp only [hg, if_true] at h
          by_cases hbt : ((((s.drop (s.takeWhile isPyDigit).length).drop 1).drop
              (((s.drop (s.takeWhile isPyDigit).length).drop 1).takeWhile isPySpace).length).isEmpty &&
              decide (2 ≤ (((((s.drop (s.takeWhile isPyDigit).length).drop 1).takeWhile
                isPySpace).reverse.dropWhile (fun c => c == '\n')).reverse).length)) = true
          · simp only [hbt, if_true, Option.some.injEq, Prod.mk.injEq] at h
            simp only [Bool.and_eq_true, decide_eq_true_eq] at hbt
            have hw2ne : (((((s.drop (s.takeWhile isPyDigit).length).drop 1).takeWhile
                isPySpace).reverse.dropWhile (fun c => c == '\n')).reverse) ≠ [] := by
              intro hnil
              rw [hnil] at hbt
              simp at hbt
            have hmem := getLastD_mem _ ' ' hw2ne
            rw [List.mem_reverse] at hmem
            have hmem2 := mem_of_mem_dropWhile _ _ _ hmem
            rw [List.mem_reverse] at hmem2
            have hamp := pySpace_not_amp _ (hwsp _ hmem2)
            constructor
            · rw [← h.1, List.append_assoc]
              apply entOK_append (S ("<li>")) (by decide)
              rw [List.singleton_append, entOK_cons_iff]
              refine ⟨?_, by decide⟩
              intro hh
              rw [hh] at hamp
              exact absurd hamp (by decide)
            · rw [← h.2]
              exact entOK_drop _ _ hwOK
          · have hbt' := eq_false_of_ne_true hbt
            simp only [hbt', Bool.false_eq_true, if_false] at h
            exact Option.noConfusion h
        · have hg' := eq_false_of_ne_true hg
          simp only [hg', Bool.false_eq_true, if_false, Option.some.injEq, Prod.mk.injEq] at h
          constructor
          · rw [← h.1]
            exact entOK_append _ (entOK_append (S ("<li>")) (by decide) _
              (entOK_takeWhile _ tailChar_not_nl _ hpOK)) (S ("</li>")) (by decide)
          · rw [← h.2]
            exact entOK_drop _ _ hpOK
    · have ht' := eq_false_of_ne_true ht
      simp only [ht', Bool.false_eq_true, if_false] at h
      exact Option.noConfusion h

/-! ### Matcher-specific entity lemmas: images and links -/

lemma imgM_none_tail : ∀ c cs, tailChar c = true → imgM (c :: cs) = none := by
  intro c cs hc
  have hne : (('!' : Char) == c) = false := by
    rcases tailChar_elim c hc with rfl | rfl | rfl | rfl | rfl | rfl | rfl <;> decide
  simp [imgM, startsW, hne]

lemma imgM_shrink : ∀ s e r, imgM s = some (e, r) → r.length < s.length := by
  intro s e r h
  by_cases hp : startsW (S ("![")) s = true
  · have hs2 : 2 ≤ s.length := startsW_length _ s hp
    simp only [imgM, hp, if_true] at h
    by_cases ht2 : startsW (S ("](")) ((s.drop 2).drop ((s.drop 2).takeWhile (fun c => !(c == ']'))).length) = true
    · have ht2l := startsW_length _ _ ht2
      simp only [ht2, if_true] at h
      by_cases hu : ((((s.drop 2).drop ((s.drop 2).takeWhile (fun c => !(c == ']'))).length).drop 2).takeWhile
          (fun c => !(c == ')'))).isEmpty = true
      · simp only [hu, if_true] at h
        exact Option.noConfusion h
      · have hu' := eq_false_of_ne_true hu
        simp only [hu', Bool.false_eq_true, if_false] at h
        by_cases ht3 : startsW (S (")")) ((((s.drop 2).drop ((s.drop 2).takeWhile (fun c => !(c == ']'))).length).drop 2).drop
            ((((s.drop 2).drop ((s.drop 2).takeWhile (fun c => !(c == ']'))).length).drop 2).takeWhile
              (fun c => !(c == ')'))).length) = true
        · have ht3l := startsW_length _ _ ht3
          simp only [ht3, if_true, Option.some.injEq, Prod.mk.injEq] at h
          rw [← h.2]
          simp [List.length_drop] at ht2l ht3l ⊢
          omega
        · have ht3' := eq_false_of_ne_true ht3
          simp only [ht3', Bool.false_eq_true, if_false] at h
          exact Option.noConfusion h
    · have ht2' := eq_false_of_ne_true ht2
      simp only [ht2', Bool.false_eq_true, if_false] at h
      exact Option.noConfusion h
  · have hp' := eq_false_of_ne_true hp
    simp only [imgM, hp', Bool.false_eq_true, if_false] at h
    exact Option.noConfusion h

lemma imgM_ent : ∀ s e r, entOK s = true → imgM s = some (e, r) →
    entOK e = true ∧ entOK r = true := by
  intro s e r hs h
  by_cases hp : startsW (S ("![")) s = true
  · simp only [imgM, hp, if_true] at h
    have hA : entOK (s.drop 2) = true := entOK_drop s 2 hs
    have halt : entOK ((s.drop 2).takeWhile (fun c => !(c == ']'))) = true :=
      entOK_takeWhile _ tailChar_not_rb _ hA
    have ht2e : entOK ((s.drop 2).drop ((s.drop 2).takeWhile (fun c => !(c == ']'))).length) = true :=
      entOK_drop _ _ hA
    by_cases ht2 : startsW (S ("](")) ((s.drop 2).drop ((s.drop 2).takeWhile (fun c => !(c == ']'))).length) = true
    · simp only [ht2, if_true] at h
      have hr4 : entOK (((s.drop 2).drop ((s.drop 2).takeWhile (fun c => !(c == ']'))).length).drop 2) = true :=
        entOK_drop _ _ ht2e
      have hurl : entOK ((((s.drop 2).drop ((s.drop 2).takeWhile (fun c => !(c == ']'))).length).drop 2).takeWhile
          (fun c => !(c == ')'))) = true := entOK_takeWhile _ tailChar_not_rp _ hr4
      by_cases hu : ((((s.drop 2).drop ((s.drop 2).takeWhile (fun c => !(c == ']'))).length).drop 2).takeWhile
          (fun c => !(c == ')'))).isEmpty = true
      · simp only [hu, if_true] at h
        exact Option.noConfusion h
      · have hu' := eq_false_of_ne_true hu
        simp only [hu', Bool.false_eq_true, if_false] at h
        have ht3e : entOK ((((s.drop 2).drop ((s.drop 2).takeWhile (fun c => !(c == ']'))).length).drop 2).drop
            ((((s.drop 2).drop ((s.drop 2).takeWhile (fun c => !(c == ']'))).length).drop 2).takeWhile
              (fun c => !(c == ')'))).length) = true := entOK_drop _ _ hr4
        by_cases ht3 : startsW (S (")")) ((((s.drop 2).drop ((s.drop 2).takeWhile (fun c => !(c == ']'))).length).drop 2).drop
            ((((s.drop 2).drop ((s.drop 2).takeWhile (fun c => !(c == ']'))).length).drop 2).takeWhile
              (fun c => !(c == ')'))).length) = true
        · simp only [ht3, if_true, Option.some.injEq, Prod.mk.injEq] at h
          constructor
          · rw [← h.1, imgTag]
            exact entOK_append _ (entOK_append _ (entOK_append _
              (entOK_append (S ("<img src=\"")) (by decide) _ hurl) (S ("\" alt=\"")) (by decide)) _ halt)
              (S ("\" style=\"max-width:100%\">")) (by decide)
          · rw [← h.2]
            exact entOK_drop _ _ ht3e
        · have ht3' := eq_false_of_ne_true ht3
          simp only [ht3', Bool.false_eq_true, if_false] at h
          exact Option.noConfusion h
    · have ht2' := eq_false_of_ne_true ht2
      simp only [ht2', Bool.false_eq_true, if_false] at h
      exact Option.noConfusion h
  · have hp' := eq_false_of_ne_true hp
    simp only [imgM, hp', Bool.false_eq_true, if_false] at h
    exact Option.noConfusion h

lemma linkM_none_tail : ∀ c cs, tailChar c = true → linkM (c :: cs) = none := by
  intro c cs hc
  have hne : (('[' : Char) == c) = false := by
    rcases tailChar_elim c hc with rfl | rfl | rfl | rfl | rfl | rfl | rfl <;> decide
  simp [linkM, startsW, hne]

lemma linkM_shrink : ∀ s e r, linkM s = some (e, r) → r.length < s.length := by
  intro s e r h
  by_cases hp : startsW (S ("[")) s = true
  · have hs1 : 1 ≤ s.length := startsW_length _ s hp
    simp only [linkM, hp, if_true] at h
    by_cases htx : ((s.drop 1).takeWhile (fun c => !(c == ']'))).isEmpty = true
    · simp only [htx, if_true] at h
      exact Option.noConfusion h
    · have htx' := eq_false_of_ne_true htx
      simp only [htx', Bool.false_eq_true, if_false] at h
      by_cases ht2 : startsW (S ("](")) ((s.drop 1).drop ((s.drop 1).takeWhile (fun c => !(c == ']'))).length) = true
      · have ht2l := startsW_length _ _ ht2
        simp only [ht2, if_true] at h
        by_cases hu : ((((s.drop 1).drop ((s.drop 1).takeWhile (fun c => !(c == ']'))).length).drop 2).takeWhile
            (fun c => !(c == ')'))).isEmpty = true
        · simp only [hu, if_true] at h
          exact Option.noConfusion h
        · have hu' := eq_false_of_ne_true hu
          simp only [hu', Bool.false_eq_true, if_false] at h
          by_cases ht3 : startsW (S (")")) ((((s.drop 1).drop ((s.drop 1).takeWhile (fun c => !(c == ']'))).length).drop 2).drop
              ((((s.drop 1).drop ((s.drop 1).takeWhile (fun c => !(c == ']'))).length).drop 2).takeWhile
                (fun c => !(c == ')'))).length) = true
          · have ht3l := startsW_length _ _ ht3
            simp only [ht3, if_true, Option.some.injEq, Prod.mk.injEq] at h
            rw [← h.2]
            simp [List.length_drop] at ht2l ht3l ⊢
            omega
          · have ht3' := eq_false_of_ne_true ht3
            simp only [ht3', Bool.false_eq_true, if_false] at h
            exact Option.noConfusion h
      · have ht2' := eq_false_of_ne_true ht2
        simp only [ht2', Bool.false_eq_true, if_false] at h
        exact Option.noConfusion h
  · have hp' := eq_false_of_ne_true hp
    simp only [linkM, hp', Bool.false_eq_true, if_false] at h
    exact Option.noConfusion h

lemma linkM_ent : ∀ s e r, entOK s = true → linkM s = some (e, r) →
    entOK e = true ∧ entOK r = true := by
  intro s e r hs h
  by_cases hp : startsW (S ("[")) s = true
  · simp only [linkM, hp, if_true] at h
    have hA : entOK (s.drop 1) = true := entOK_drop s 1 hs
    have htxt : entOK ((s.drop 1).takeWhile (fun c => !(c == ']'))) = true :=
      entOK_takeWhile _ tailChar_not_rb _ hA
    have ht2e : entOK ((s.drop 1).drop ((s.drop 1).takeWhile (fun c => !(c == ']'))).length) = true :=
      entOK_drop _ _ hA
    by_cases htx : ((s.drop 1).takeWhile (fun c => !(c == ']'))).isEmpty = true
    · simp only [htx, if_true] at h
      exact Option.noConfusion h
    · have htx' := eq_false_of_ne_true htx
      simp only [htx', Bool.false_eq_true, if_false] at h
      by_cases ht2 : startsW (S ("](")) ((s.drop 1).drop ((s.drop 1).takeWhile (fun c => !(c == ']'))).length) = true
      · simp only [ht2, if_true] at h
        have hr4 : entOK (((s.drop 1).drop ((s.drop 1).takeWhile (fun c => !(c == ']'))).length).drop 2) = true :=
          entOK_drop _ _ ht2e
        have hurl : entOK ((((s.drop 1).drop ((s.drop 1).takeWhile (fun c => !(c == ']'))).length).drop 2).takeWhile
            (fun c => !(c == ')'))) = true := entOK_takeWhile _ tailChar_not_rp _ hr4
        by_cases hu : ((((s.drop 1).drop ((s.drop 1).takeWhile (fun c => !(c == ']'))).length).drop 2).takeWhile
            (fun c => !(c == ')'))).isEmpty = true
        · simp only [hu, if_true] at h
          exact Option.noConfusion h
        · have hu' := eq_false_of_ne_true hu
          simp only [hu', Bool.false_eq_true, if_false] at h
          have ht3e : entOK ((((s.drop 1).drop ((s.drop 1).takeWhile (fun c => !(c == ']'))).length).drop 2).drop
              ((((s.drop 1).drop ((s.drop 1).takeWhile (fun c => !(c == ']'))).length).drop 2).takeWhile
                (fun c => !(c == ')'))).length) = true := entOK_drop _ _ hr4
          by_cases ht3 : startsW (S (")")) ((((s.drop 1).drop ((s.drop 1).takeWhile (fun c => !(c == ']'))).length).drop 2).drop
              ((((s.drop 1).drop ((s.drop 1).takeWhile (fun c => !(c == ']'))).length).drop 2).takeWhile
                (fun c => !(c == ')'))).length) = true
          · simp only [ht3, if_true, Option.some.injEq, Prod.mk.injEq] at h
            constructor
            · rw [← h.1]
              exact entOK_append _ (entOK_append _ (entOK_append _
                (entOK_append (S ("<a href=\"")) (by decide) _ hurl) (S ("\">")) (by decide)) _ htxt)
                (S ("</a>")) (by decide)
            · rw [← h.2]
              exact entOK_drop _ _ ht3e
          · have ht3' := eq_false_of_ne_true ht3
            simp only [ht3', Bool.false_eq_true, if_false] at h
            exact Option.noConfusion h
      · have ht2' := eq_false_of_ne_true ht2
        simp only [ht2', Bool.false_eq_true, if_false] at h
        exact Option.noConfusion h
  · have hp' := eq_false_of_ne_true hp
    simp only [linkM, hp', Bool.false_eq_true, if_false] at h
    exact Option.noConfusion h

/-! ### Matcher-specific entity lemmas: paragraphs and cleanup -/

lemma paraM_none_tail : ∀ c cs, tailChar c = true → paraM (c :: cs) = none := by
  intro c cs hc
  have hne : (('\n' : Char) == c) = false := by
    rcases tailChar_elim c hc with rfl | rfl | rfl | rfl | rfl | rfl | rfl <;> decide
  simp [paraM, startsW, hne]

lemma paraM_shrink : ∀ s e r, paraM s = some (e, r) → r.length < s.length := by
  intro s e r h
  by_cases hp : startsW (S ("\n\n")) s = true
  · simp only [paraM, hp, if_true, Option.some.injEq, Prod.mk.injEq] at h
    cases s with
    | nil => simp [startsW] at hp
    | cons c cs =>
      simp [startsW] at hp
      rw [← h.2, List.dropWhile_cons]
      have hc : (c == '\n') = true := by simp [hp.1.symm]
      simp only [hc, if_true]
      have := dropWhile_length_le (fun c => c == '\n') cs
      simp
      omega
  · have hp' := eq_false_of_ne_true hp
    simp only [paraM, hp', Bool.false_eq_true, if_false] at h
    exact Option.noConfusion h

lemma paraM_ent : ∀ s e r, entOK s = true → paraM s = some (e, r) →
    entOK e = true ∧ entOK r = true := by
  intro s e r hs h
  by_cases hp : startsW (S ("\n\n")) s = true
  · simp only [paraM, hp, if_true, Option.some.injEq, Prod.mk.injEq] at h
    exact ⟨h.1 ▸ (by decide), h.2 ▸ entOK_dropWhile _ s hs⟩
  · have hp' := eq_false_of_ne_true hp
    simp only [paraM, hp', Bool.false_eq_true, if_false] at h
    exact Option.noConfusion h

lemma emptyPM_none_tail : ∀ c cs, tailChar c = true → emptyPM (c :: cs) = none := by
  intro c cs hc
  have hne : (('<' : Char) == c) = false := by
    rcases tailChar_elim c hc with rfl | rfl | rfl | rfl | rfl | rfl | rfl <;> decide
  simp [emptyPM, startsW, hne]

lemma emptyPM_shrink : ∀ s e r, emptyPM s = some (e, r) → r.length < s.length := by
  intro s e r h
  by_cases hp : startsW (S ("<p>")) s = true
  · have hs3 : 3 ≤ s.length := startsW_length _ s hp
    simp only [emptyPM, hp, if_true] at h
    by_cases hq : startsW (S ("</p>")) ((s.drop 3).dropWhile isPySpace) = true
    · have hq4 := startsW_length _ _ hq
      simp only [hq, if_true, Option.some.injEq, Prod.mk.injEq] at h
      have hdwl := dropWhile_length_le isPySpace (s.drop 3)
      rw [← h.2]
      simp [List.length_drop] at hq4 hdwl ⊢
      omega
    · have hq' := eq_false_of_ne_true hq
      simp only [hq', Bool.false_eq_true, if_false] at h
      exact Option.noConfusion h
  · have hp' := eq_false_of_ne_true hp
    simp only [emptyPM, hp', Bool.false_eq_true, if_false] at h
    exact Option.noConfusion h

lemma emptyPM_ent : ∀ s e r, entOK s = true → emptyPM s = some (e, r) →
    entOK e = true ∧ entOK r = true := by
  intro s e r hs h
  by_cases hp : startsW (S ("<p>")) s = true
  · simp only [emptyPM, hp, if_true] at h
    by_cases hq : startsW (S ("</p>")) ((s.drop 3).dropWhile isPySpace) = true
    · simp only [hq, if_true, Option.some.injEq, Prod.mk.injEq] at h
      refine ⟨h.1 ▸ rfl, h.2 ▸ ?_⟩
      exact entOK_drop _ _ (entOK_dropWhile _ _ (entOK_drop s 3 hs))
    · have hq' := eq_false_of_ne_true hq
      simp only [hq', Bool.false_eq_true, if_false] at h
      exact Option.noConfusion h
  · have hp' := eq_false_of_ne_true hp
    simp only [emptyPM, hp', Bool.false_eq_true, if_false] at h
    exact Option.noConfusion h

/-! ### The escaping stage establishes the entity invariant -/

lemma escAmp_ent : ∀ s, entOK (replaceAll (S ("&")) (S ("&amp;")) s) = true := by
  have hsh := litM_shrink (S ("&")) (S ("&amp;")) (by decide)
  suffices H : ∀ (n : Nat) (s : Str), s.length ≤ n →
      entOK (replaceAll (S ("&")) (S ("&amp;")) s) = true by
    intro s
    exact H s.length s le_rfl
  intro n
  induction n with
  | zero =>
    intro s hlen
    have hnil : s = [] := List.length_eq_zero.1 (Nat.le_zero.1 hlen)
    subst hnil
    rfl
  | succ n ih =>
    intro s hlen
    cases s with
    | nil => rfl
    | cons c cs =>
      have hlcs : cs.length ≤ n := by simp at hlen; omega
      by_cases hc : c = '&'
      · subst hc
        have hm : litM (S ("&")) (S ("&amp;")) ('&' :: cs) = some (S ("&amp;"), cs) := by
          simp [litM, startsW]
          rfl
        rw [show replaceAll (S ("&")) (S ("&amp;")) ('&' :: cs) =
          reSub (litM (S ("&")) (S ("&amp;"))) ('&' :: cs) from rfl]
        rw [reSub_cons_some _ hsh _ _ _ _ hm]
        exact entOK_append _ (by decide) _ (ih cs hlcs)
      · have hne : (('&' : Char) == c) = false := by simp [beq_iff_eq]; exact fun h => hc h.symm
        have hm : litM (S ("&")) (S ("&amp;")) (c :: cs) = none := by
          simp [litM, startsW, hne]
        rw [show replaceAll (S ("&")) (S ("&amp;")) (c :: cs) =
          reSub (litM (S ("&")) (S ("&amp;"))) (c :: cs) from rfl]
        rw [reSub_cons_none _ _ _ hm]
        rw [entOK_cons_iff]
        exact ⟨fun h => absurd h hc, ih cs hlcs⟩

lemma escLt_noLt : ∀ s, '<' ∉ replaceAll (S ("<")) (S ("&lt;")) s := by
  have hsh := litM_shrink (S ("<")) (S ("&lt;")) (by decide)
  suffices H : ∀ (n : Nat) (s : Str), s.length ≤ n →
      '<' ∉ replaceAll (S ("<")) (S ("&lt;")) s by
    intro s
    exact H s.length s le_rfl
  intro n
  induction n with
  | zero =>
    intro s hlen
    have hnil : s = [] := List.length_eq_zero.1 (Nat.le_zero.1 hlen)
    subst hnil
    simp [replaceAll, reSub, reSubF]
  | succ n ih =>
    intro s hlen
    cases s with
    | nil => simp [replaceAll, reSub, reSubF]
    | cons c cs =>
      have hlcs : cs.length ≤ n := by simp at hlen; omega
      by_cases hc : c = '<'
      · subst hc
        have hm : litM (S ("<")) (S ("&lt;")) ('<' :: cs) = some (S ("&lt;"), cs) := by
          simp [litM, startsW]
          rfl
        rw [show replaceAll (S ("<")) (S ("&lt;")) ('<' :: cs) =
          reSub (litM (S ("<")) (S ("&lt;"))) ('<' :: cs) from rfl]
        rw [reSub_cons_some _ hsh _ _ _ _ hm]
        simp [List.mem_append]
        exact ⟨by decide, ih cs hlcs⟩
      · have hne : (('<' : Char) == c) = false := by simp [beq_iff_eq]; exact fun h => hc h.symm
        have hm : litM (S ("<")) (S ("&lt;")) (c :: cs) = none := by
          simp [litM, startsW, hne]
        rw [show replaceAll (S ("<")) (S ("&lt;")) (c :: cs) =
          reSub (litM (S ("<")) (S ("&lt;"))) (c :: cs) from rfl]
        rw [reSub_cons_none _ _ _ hm]
        simp [List.mem_cons]
        exact ⟨fun h => hc h.symm, ih cs hlcs⟩

lemma escGt_noGt : ∀ s, '>' ∉ replaceAll (S (">")) (S ("&gt;")) s := by
  have hsh := litM_shrink (S (">")) (S ("&gt;")) (by decide)
  suffices H : ∀ (n : Nat) (s : Str), s.length ≤ n →
      '>' ∉ replaceAll (S (">")) (S ("&gt;")) s by
    intro s
    exact H s.length s le_rfl
  intro n
  induction n with
  | zero =>
    intro s hlen
    have hnil : s = [] := List.length_eq_zero.1 (Nat.le_zero.1 hlen)
    subst hnil
    simp [replaceAll, reSub, reSubF]
  | succ n ih =>
    intro s hlen
    cases s with
    | nil => simp [replaceAll, reSub, reSubF]
    | cons c cs =>
      have hlcs : cs.length ≤ n := by simp at hlen; omega
      by_cases hc : c = '>'
      · subst hc
        have hm : litM (S (">")) (S ("&gt;")) ('>' :: cs) = some (S ("&gt;"), cs) := by
          simp [litM, startsW]
          rfl
        rw [show replaceAll (S (">")) (S ("&gt;")) ('>' :: cs) =
          reSub (litM (S (">")) (S ("&gt;"))) ('>' :: cs) from rfl]
        rw [reSub_cons_some _ hsh _ _ _ _ hm]
        simp [List.mem_append]
        exact ⟨by decide, ih cs hlcs⟩
      · have hne : (('>' : Char) == c) = false := by simp [beq_iff_eq]; exact fun h => hc h.symm
        have hm : litM (S (">")) (S ("&gt;")) (c :: cs) = none := by
          simp [litM, startsW, hne]
        rw [show replaceAll (S (">")) (S ("&gt;")) (c :: cs) =
          reSub (litM (S (">")) (S ("&gt;"))) (c :: cs) from rfl]
        rw [reSub_cons_none _ _ _ hm]
        simp [List.mem_cons]
        exact ⟨fun h => hc h.symm, ih cs hlcs⟩

lemma escGt_presLt : ∀ s, '<' ∉ s → '<' ∉ replaceAll (S (">")) (S ("&gt;")) s := by
  have hsh := litM_shrink (S (">")) (S ("&gt;")) (by decide)
  suffices H : ∀ (n : Nat) (s : Str), s.length ≤ n → '<' ∉ s →
      '<' ∉ replaceAll (S (">")) (S ("&gt;")) s by
    intro s
    exact H s.length s le_rfl
  intro n
  induction n with
  | zero =>
    intro s hlen _
    have hnil : s = [] := List.length_eq_zero.1 (Nat.le_zero.1 hlen)
    subst hnil
    simp [replaceAll, reSub, reSubF]
  | succ n ih =>
    intro s hlen hnm
    cases s with
    | nil => simp [replaceAll, reSub, reSubF]
    | cons c cs =>
      have hlcs : cs.length ≤ n := by simp at hlen; omega
      have hnmcs : '<' ∉ cs := fun h => hnm (List.mem_cons_of_mem _ h)
      by_cases hc : c = '>'
      · subst hc
        have hm : litM (S (">")) (S ("&gt;")) ('>' :: cs) = some (S ("&gt;"), cs) := by
          simp [litM, startsW]
          rfl
        rw [show replaceAll (S (">")) (S ("&gt;")) ('>' :: cs) =
          reSub (litM (S (">")) (S ("&gt;"))) ('>' :: cs) from rfl]
        rw [reSub_cons_some _ hsh _ _ _ _ hm]
        simp [List.mem_append]
        exact ⟨by decide, ih cs hlcs hnmcs⟩
      · have hne : (('>' : Char) == c) = false := by simp [beq_iff_eq]; exact fun h => hc h.symm
        have hm : litM (S (">")) (S ("&gt;")) (c :: cs) = none := by
          simp [litM, startsW, hne]
        rw [show replaceAll (S (">")) (S ("&gt;")) (c :: cs) =
          reSub (litM (S (">")) (S ("&gt;"))) (c :: cs) from rfl]
        rw [reSub_cons_none _ _ _ hm]
        simp [List.mem_cons]
        refine ⟨fun h => ?_, ih cs hlcs hnmcs⟩
        exact hnm (List.mem_cons.2 (Or.inl h))

lemma escapeHtml_noLt (t : Str) : '<' ∉ escapeHtml t :=
  escGt_presLt _ (escLt_noLt _)

lemma escapeHtml_noGt (t : Str) : '>' ∉ escapeHtml t :=
  escGt_noGt _

lemma escapeHtml_ent (t : Str) : entOK (escapeHtml t) = true := by
  show entOK (replaceAll (S (">")) (S ("&gt;"))
    (replaceAll (S ("<")) (S ("&lt;")) (replaceAll (S ("&")) (S ("&amp;")) t))) = true
  apply reSub_ent _ (litM_shrink _ _ (by decide))
    (fun c cs hc => litM_none_tail '>' [] (S ("&gt;")) (by decide) c cs hc)
    (litM_ent _ _ (by decide))
  apply reSub_ent _ (litM_shrink _ _ (by decide))
    (fun c cs hc => litM_none_tail '<' [] (S ("&lt;")) (by decide) c cs hc)
    (litM_ent _ _ (by decide))
  exact escAmp_ent t

/-! ### Entity invariant through every post-escape stage -/

lemma tailChar_bad_nl : ∀ c, tailChar c = true → (c == '\n') = false := by
  intro c h
  have := tailChar_not_nl c h
  simpa using this

lemma tailChar_bad_btick : ∀ c, tailChar c = true → (c == btick) = false := by
  intro c h
  rcases tailChar_elim c h with rfl | rfl | rfl | rfl | rfl | rfl | rfl <;> decide

lemma litM_none_tail2 (old new : Str) (hne : old ≠ []) (ho : tailChar (old.headD ' ') = false) :
    ∀ c cs, tailChar c = true → litM old new (c :: cs) = none := by
  cases old with
  | nil => exact absurd rfl hne
  | cons o os =>
    intro c cs hc
    exact litM_none_tail o os new (by simpa using ho) c cs hc

lemma spanM_none_tail2 (op close otag ctag : Str) (bad : Char → Bool) (hne : op ≠ [])
    (ho : tailChar (op.headD ' ') = false) :
    ∀ c cs, tailChar c = true → spanM op close otag ctag bad (c :: cs) = none := by
  cases op with
  | nil => exact absurd rfl hne
  | cons o os =>
    intro c cs hc
    exact spanM_none_tail o os close otag ctag bad (by simpa using ho) c cs hc

lemma spanM_ent2 (op close otag ctag : Str) (bad : Char → Bool)
    (hbad : ∀ c, tailChar c = true → bad c = false)
    (hclne : close ≠ []) (hclh : tailChar (close.headD ' ') = false)
    (hot : entOK otag = true) (hct : entOK ctag = true) :
    ∀ s e r, entOK s = true → spanM op close otag ctag bad s = some (e, r) →
      entOK e = true ∧ entOK r = true := by
  cases close with
  | nil => exact absurd rfl hclne
  | cons cl0 clr =>
    exact spanM_ent op cl0 clr otag ctag bad hbad (by simpa using hclh) hot hct

lemma headerPass_ent (k : Nat) (hko : entOK (hOpen k) = true) (hkc : entOK (hClose k) = true)
    (s : Str) (hs : entOK s = true) : entOK (headerPass k s) = true :=
  lineSub_ent _ (lineTagM_shrink _ _ _ (by simp)) (lineTagM_ent _ _ _ hko hkc) s hs

lemma headersStage_ent (s : Str) (hs : entOK s = true) : entOK (headersStage s) = true := by
  unfold headersStage
  apply headerPass_ent 1 (by decide) (by decide)
  apply headerPass_ent 2 (by decide) (by decide)
  apply headerPass_ent 3 (by decide) (by decide)
  apply headerPass_ent 4 (by decide) (by decide)
  apply headerPass_ent 5 (by decide) (by decide)
  apply headerPass_ent 6 (by decide) (by decide)
  exact hs

lemma stars3Stage_ent (s : Str) (hs : entOK s = true) : entOK (stars3Stage s) = true :=
  reSub_ent _ (spanM_shrink _ _ _ _ _)
    (spanM_none_tail2 _ _ _ _ _ (by decide) (by decide))
    (spanM_ent2 _ _ _ _ _ tailChar_bad_nl (by decide) (by decide) (by decide) (by decide))
    s hs

lemma stars2Stage_ent (s : Str) (hs : entOK s = true) : entOK (stars2Stage s) = true :=
  reSub_ent _ (spanM_shrink _ _ _ _ _)
    (spanM_none_tail2 _ _ _ _ _ (by decide) (by decide))
    (spanM_ent2 _ _ _ _ _ tailChar_bad_nl (by decide) (by decide) (by decide) (by decide))
    s hs

lemma stars1Stage_ent (s : Str) (hs : entOK s = true) : entOK (stars1Stage s) = true :=
  reSub_ent _ (spanM_shrink _ _ _ _ _)
    (spanM_none_tail2 _ _ _ _ _ (by decide) (by decide))
    (spanM_ent2 _ _ _ _ _ tailChar_bad_nl (by decide) (by decide) (by decide) (by decide))
    s hs

lemma codeStage_ent (s : Str) (hs : entOK s = true) : entOK (codeStage s) = true :=
  reSub_ent _ (spanM_shrink _ _ _ _ _)
    (spanM_none_tail2 _ _ _ _ _ (by decide) (by decide))
    (spanM_ent2 _ _ _ _ _ tailChar_bad_btick (by decide) (by decide) (by decide) (by decide))
    s hs

lemma imgStage_ent (s : Str) (hs : entOK s = true) : entOK (imgStage s) = true :=
  reSub_ent _ imgM_shrink imgM_none_tail imgM_ent s hs

lemma linkStage_ent (s : Str) (hs : entOK s = true) : entOK (linkStage s) = true :=
  reSub_ent _ linkM_shrink linkM_none_tail linkM_ent s hs

lemma unordStage_ent (s : Str) (hs : entOK s = true) : entOK (unordStage s) = true :=
  lineSub_ent _ (lineTagM_shrink _ _ _ (by decide)) (lineTagM_ent _ _ _ (by decide) (by decide)) s hs

lemma ordStage_ent (s : Str) (hs : entOK s = true) : entOK (ordStage s) = true :=
  lineSub_ent _ ordM_shrink ordM_ent s hs

lemma paraStage_ent (s : Str) (hs : entOK s = true) : entOK (paraStage s) = true :=
  reSub_ent _ paraM_shrink paraM_none_tail paraM_ent s hs

lemma pWrap_ent (s : Str) (hs : entOK s = true) : entOK (pWrap s) = true :=
  entOK_append _ (entOK_append (S ("<p>")) (by decide) s hs) (S ("</p>")) (by decide)

lemma cleanEmptyStage_ent (s : Str) (hs : entOK s = true) : entOK (cleanEmptyStage s) = true :=
  reSub_ent _ emptyPM_shrink emptyPM_none_tail emptyPM_ent s hs

lemma openUlStage_ent (s : Str) (hs : entOK s = true) : entOK (openUlStage s) = true :=
  reSub_ent _ (litM_shrink _ _ (by decide))
    (litM_none_tail2 _ _ (by decide) (by decide))
    (litM_ent _ _ (by decide)) s hs

lemma closeUlStage_ent (s : Str) (hs : entOK s = true) : entOK (closeUlStage s) = true :=
  reSub_ent _ (litM_shrink _ _ (by decide))
    (litM_none_tail2 _ _ (by decide) (by decide))
    (litM_ent _ _ (by decide)) s hs

lemma postEscape_ent (s : Str) (hs : entOK s = true) : entOK (postEscape s) = true :=
  closeUlStage_ent _ (openUlStage_ent _ (cleanEmptyStage_ent _ (pWrap_ent _ (paraStage_ent _
    (codeStage_ent _ (ordStage_ent _ (unordStage_ent _ (linkStage_ent _ (imgStage_ent _
      (stars1Stage_ent _ (stars2Stage_ent _ (stars3Stage_ent _ (headersStage_ent _ hs)))))))))))))

/-- C1: the HTML metacharacters of the input text are escaped first:
after the escaping stage no raw `<` or `>` remains and every `&`
begins one of the entities `&amp;`, `&lt;`, `&gt;`; the rest of the
pipeline runs on this escaped text, and no later stage un-escapes an
entity: the final rendered body still satisfies the entity invariant,
so no `&`, `<` or `>` of the input text reappears unescaped outside of
the tags the renderer itself emits. -/
theorem spec_c1 : ∀ t : Str,
    ('<' ∉ escapeHtml t) ∧ ('>' ∉ escapeHtml t) ∧ entOK (escapeHtml t) = true ∧
    mdBody t = postEscape (escapeHtml t) ∧ entOK (mdBody t) = true := by
  intro t
  exact ⟨escapeHtml_noLt t, escapeHtml_noGt t, escapeHtml_ent t, rfl,
    postEscape_ent _ (escapeHtml_ent t)⟩
